import Mathlib

set_option maxHeartbeats 1000000

/-!
Verification development for the OpenAPI-to-Rust code generator
(`scripts/generate_from_openapi_v2.py`, plus `generate_enum` from
`scripts/generate_from_openapi.py`).

The Python source is shallowly embedded: each Python function becomes a Lean
function of the same name operating on an explicit representation of the JSON
schema dictionaries.  Python strings are modelled as Lean `String`s; the string
primitives used by the source (`str.lower`, `str.upper`, `str.capitalize`,
`str.startswith`, slicing, `str.replace`, `str.split`, `in`) are implemented
over `List Char` with the ASCII semantics that the source relies on (the
regular-expression classes `[A-Z]`, `[a-z]`, `\d` are ASCII).  Case conversion
is given by an explicit table of the 26 ASCII letter pairs.  Functions that
produce multi-line text return the list of emitted lines (the final
`'\n'.join` of the source is omitted, it is a bijective packaging step).
-/

/-- The 26 ASCII (uppercase, lowercase) letter pairs; basis of the embedding of
Python's ASCII case handling. -/
def asciiPairs : List (Char × Char) :=
  [('A', 'a'), ('B', 'b'), ('C', 'c'), ('D', 'd'), ('E', 'e'), ('F', 'f'),
   ('G', 'g'), ('H', 'h'), ('I', 'i'), ('J', 'j'), ('K', 'k'), ('L', 'l'),
   ('M', 'm'), ('N', 'n'), ('O', 'o'), ('P', 'p'), ('Q', 'q'), ('R', 'r'),
   ('S', 's'), ('T', 't'), ('U', 'u'), ('V', 'v'), ('W', 'w'), ('X', 'x'),
   ('Y', 'y'), ('Z', 'z')]

/-- The regex class `[A-Z]` / Python `str.isupper` on one ASCII char. -/
def pyCharIsUpper (c : Char) : Bool := asciiPairs.any (fun p => p.1 == c)

/-- The regex class `[a-z]` / Python `str.islower` on one ASCII char. -/
def pyCharIsLower (c : Char) : Bool := asciiPairs.any (fun p => p.2 == c)

/-- The regex class `\d` (ASCII digits). -/
def pyCharIsDigit (c : Char) : Bool := ("0123456789").data.contains c

def pyCharIsAlpha (c : Char) : Bool := pyCharIsUpper c || pyCharIsLower c

/-- Python `str.lower` on one char (ASCII). -/
def pyCharLower (c : Char) : Char :=
  match asciiPairs.find? (fun p => p.1 == c) with
  | some p => p.2
  | none => c

/-- Python `str.upper` on one char (ASCII). -/
def pyCharUpper (c : Char) : Char :=
  match asciiPairs.find? (fun p => p.2 == c) with
  | some p => p.1
  | none => c

/-- Python `str.lower`. -/
def pyLower (s : String) : String := String.mk (s.data.map pyCharLower)

/-- Python `str.upper`. -/
def pyUpper (s : String) : String := String.mk (s.data.map pyCharUpper)

/-- Python `str.capitalize` on a char list: first char upper-cased, the rest
lower-cased. -/
def pyCapitalizeChars : List Char → List Char
  | [] => []
  | c :: cs => pyCharUpper c :: cs.map pyCharLower

/-- Python `str.capitalize`. -/
def pyCapitalize (s : String) : String := String.mk (pyCapitalizeChars s.data)

/-- Python `str.startswith`. -/
def pyStartsWith (s p : String) : Bool := p.data.isPrefixOf s.data

/-- Python slicing `s[n:]` (by characters). -/
def pyDropChars (s : String) (n : Nat) : String := String.mk (s.data.drop n)

/-- Python substring membership `pat in s`. -/
def pyContainsSub (s pat : String) : Bool :=
  s.data.tails.any (fun t => pat.data.isPrefixOf t)

/-- Python `str.split(sep)` for a one-char separator, on char lists. -/
def splitChar (sep : Char) : List Char → List (List Char)
  | [] => [[]]
  | c :: cs =>
    match splitChar sep cs with
    | [] => [[c]]
    | w :: ws => if c = sep then [] :: w :: ws else (c :: w) :: ws

/-- Non-overlapping left-to-right replacement on char lists (fuel-driven; the
fuel is the length of the scanned list, which always suffices).  Faithful to
Python `str.replace` for a non-empty pattern. -/
def replaceGo (pat rep : List Char) : Nat → List Char → List Char
  | _, [] => []
  | 0, l => l
  | fuel + 1, c :: cs =>
    if pat.isPrefixOf (c :: cs) ∧ pat ≠ [] then
      rep ++ replaceGo pat rep fuel ((c :: cs).drop pat.length)
    else
      c :: replaceGo pat rep fuel cs

/-- Python `str.replace` (all non-overlapping occurrences). -/
def pyReplace (s pat rep : String) : String :=
  String.mk (replaceGo pat.data rep.data s.data.length s.data)

/-- Python `str.isupper`: at least one cased char, and every cased char is
uppercase (ASCII). -/
def pyIsUpperStr (s : String) : Bool :=
  s.data.any pyCharIsAlpha && s.data.all (fun c => !pyCharIsAlpha c || pyCharIsUpper c)

/-- Python `str.islower`: at least one cased char, and every cased char is
lowercase (ASCII). -/
def pyIsLowerStr (s : String) : Bool :=
  s.data.any pyCharIsAlpha && s.data.all (fun c => !pyCharIsAlpha c || pyCharIsLower c)

/-!  `to_snake_case` (generate_from_openapi_v2.py lines 15-21).

The first substitution `re.sub(r'([A-Z]+)([A-Z][a-z])', r'\1_\2', name)`
matches, at each scan position, a maximal run of at least two uppercase
letters followed by a lowercase letter, and inserts an underscore before the
last uppercase letter of the run; scanning resumes after the match.
`sub1Go` carries the uppercase run read so far. -/

def sub1Go (run : List Char) : List Char → List Char
  | [] => run
  | c :: cs =>
    if pyCharIsUpper c then sub1Go (run ++ [c]) cs
    else if 2 ≤ run.length ∧ pyCharIsLower c then
      run.dropLast ++ '_' :: run.getLast! :: c :: sub1Go [] cs
    else run ++ c :: sub1Go [] cs

/-- The second substitution `re.sub(r'([a-z\d])([A-Z])', r'\1_\2', name)`:
an underscore between a lowercase letter or digit and a following uppercase
letter; both matched chars are consumed before scanning resumes. -/
def sub2 : List Char → List Char
  | [] => []
  | [c] => [c]
  | c1 :: c2 :: cs =>
    if (pyCharIsLower c1 || pyCharIsDigit c1) ∧ pyCharIsUpper c2 then
      c1 :: '_' :: c2 :: sub2 cs
    else c1 :: sub2 (c2 :: cs)

/-- `to_snake_case` from generate_from_openapi_v2.py: the two substitutions,
then `.lower()`. -/
def to_snake_case (name : String) : String :=
  String.mk ((sub2 (sub1Go [] name.data)).map pyCharLower)

/-- `to_pascal_case` (identical text in both generator scripts):
`''.join(word.capitalize() for word in name.split('_'))`. -/
def to_pascal_case (name : String) : String :=
  String.mk (((splitChar '_' name.data).map pyCapitalizeChars).flatten)

/-!  `clean_method_name` (generate_from_openapi_v2.py lines 27-62). -/

def httpVerbs : List String := ["get", "post", "put", "delete", "patch"]

/-- The ordered replacement table of `clean_method_name`; each entry is tried
once, in order, against the start of the name. -/
def methodReplacements : List (String × String) :=
  [("get_all_", "list_"), ("get_", ""), ("_by_id", ""),
   ("create_", "create_"), ("update_", "update_"), ("delete_", "delete_")]

/-- `clean_method_name(operation_id, method)`: the verb-prefix stripping loop
(each of get/post/put/delete/patch tried once, in order, so several prefixes
can be stripped in sequence), `to_snake_case`, the replacement table, then the
verb-specific special cases. -/
def clean_method_name (operation_id method : String) : String :=
  let name := httpVerbs.foldl
    (fun n p => if pyStartsWith (pyLower n) p then pyDropChars n p.data.length else n)
    operation_id
  let name := to_snake_case name
  let name := methodReplacements.foldl
    (fun n r => if pyStartsWith n r.1 then r.2 ++ pyDropChars n r.1.data.length else n)
    name
  if method = "get" ∧ name = "" then "get"
  else if method = "get" ∧ ¬(pyStartsWith name "list" = true ∨ pyStartsWith name "get" = true) then
    "get_" ++ name
  else if method = "post" ∧ pyStartsWith name "create" = false then
    (if pyContainsSub (pyLower operation_id) "create" then "create_" ++ name else name)
  else if method = "delete" ∧ pyStartsWith name "delete" = false then
    (if name ≠ "" then "delete_" ++ name else "delete")
  else name

/-!  The schema representation.

A `Schema` models one OpenAPI schema dictionary, with one field per key the
generator reads (`$ref`, `type`, `format`, `enum`, `items`, `properties`,
`required`, `description`).  `Option` distinguishes an absent key from a
present one (Python `'k' in schema` / `schema.get('k', d)`).  `hasOtherKeys`
records whether the dictionary carries any key outside this set, which matters
only for Python truthiness (`if not schema`). -/

inductive Schema : Type where
  | mk (ref : Option String) (typ : Option String) (format : Option String)
       (enum : Option (List String)) (items : Option Schema)
       (properties : Option (List (String × Schema)))
       (required : Option (List String))
       (description : Option String)
       (hasOtherKeys : Bool) : Schema

def Schema.ref : Schema → Option String
  | .mk r _ _ _ _ _ _ _ _ => r

def Schema.typ : Schema → Option String
  | .mk _ t _ _ _ _ _ _ _ => t

def Schema.format : Schema → Option String
  | .mk _ _ f _ _ _ _ _ _ => f

def Schema.enum : Schema → Option (List String)
  | .mk _ _ _ e _ _ _ _ _ => e

def Schema.items : Schema → Option Schema
  | .mk _ _ _ _ i _ _ _ _ => i

def Schema.properties : Schema → Option (List (String × Schema))
  | .mk _ _ _ _ _ p _ _ _ => p

def Schema.required : Schema → Option (List String)
  | .mk _ _ _ _ _ _ r _ _ => r

def Schema.description : Schema → Option String
  | .mk _ _ _ _ _ _ _ d _ => d

def Schema.hasOtherKeys : Schema → Bool
  | .mk _ _ _ _ _ _ _ _ h => h

/-- The empty dictionary `{}`. -/
def emptySchema : Schema := .mk none none none none none none none none false

/-- Python truthiness test `not schema`: true exactly for the empty dict. -/
def schemaFalsy (s : Schema) : Bool :=
  s.ref.isNone && s.typ.isNone && s.format.isNone && s.enum.isNone &&
  s.items.isNone && s.properties.isNone && s.required.isNone &&
  s.description.isNone && !s.hasOtherKeys

/-- `schema['$ref'].split('/')[-1]`. -/
def refTail (r : String) : String := String.mk ((splitChar '/' r.data).getLast!)

/-- The fixed `(type, format) -> Rust type` table of `rust_type_from_openapi`
(generate_from_openapi_v2.py lines 86-100). -/
def type_map : List ((String × String) × String) :=
  [(("string", "uuid"), "String"),
   (("string", "date-time"), "String"),
   (("string", "date"), "String"),
   (("string", "binary"), "Vec<u8>"),
   (("string", ""), "String"),
   (("integer", "int32"), "i32"),
   (("integer", "int64"), "i64"),
   (("integer", ""), "i32"),
   (("number", "float"), "f32"),
   (("number", "double"), "f64"),
   (("number", ""), "f64"),
   (("boolean", ""), "bool"),
   (("object", ""), "HashMap<String, Value>")]

/-- `rust_type_from_openapi(schema, required)` (generate_from_openapi_v2.py
lines 64-113).  The `schemas` parameter of the source is omitted: the source
never reads it (it is only threaded through the recursion). -/
def rust_type_from_openapi : Schema → Bool → String
  | .mk ref typ format enum items properties required description hasOtherKeys, req =>
    if schemaFalsy (.mk ref typ format enum items properties required description hasOtherKeys)
    then "Value"
    else
      match ref with
      | some r =>
        let refName := refTail r
        let refName :=
          match refName.data with
          | [] => refName
          | c :: _ => if pyCharIsLower c then pyCapitalize refName else refName
        if req then refName else "Option<" ++ refName ++ ">"
      | none =>
        let type_str := typ.getD "object"
        let format_str := format.getD ""
        if enum.isSome then (if req then "String" else "Option<String>")
        else
          let rust0 := (((type_map.find? (fun e => e.1 == (type_str, format_str))).map
            (fun e => e.2)).getD "Value")
          let rust :=
            if type_str = "array" then
              match items with
              | some it => "Vec<" ++ rust_type_from_openapi it true ++ ">"
              | none => rust0
            else rust0
          if req then rust else "Option<" ++ rust ++ ">"

/-!  `generate_struct` (generate_from_openapi_v2.py lines 141-210), as the
list of emitted lines. -/

/-- The Rust keywords escaped with `r#` by the generator. -/
def rustReserved : List String := ["type", "ref", "use", "mod", "match", "move"]

/-- Field-name normalization inside `generate_struct`: `to_snake_case`, then
the raw-identifier escape for reserved keywords. -/
def structFieldName (propName : String) : String :=
  let f := to_snake_case propName
  if rustReserved.contains f then "r#" ++ f else f

/-- One property's test in `has_camel`: `k[0].islower() and any(c.isupper()
for c in k)`.  (Python raises on an empty key; the model returns false.) -/
def camelMixed (k : String) : Bool :=
  match k.data with
  | [] => false
  | c :: _ => pyCharIsLower c && k.data.any pyCharIsUpper

/-- The lines emitted for one (non-`links`) property of an object schema:
optional doc line, serde attributes, the `pub` field line, and a blank
line. -/
def structFieldLines (hasCamel : Bool) (requiredFields : List String)
    (propName : String) (propSchema : Schema) : List String :=
  let fieldName := structFieldName propName
  let isRequired := requiredFields.contains propName
  let rustType := rust_type_from_openapi propSchema isRequired
  let needsRename := fieldName ≠ propName ∧ ¬hasCamel
  (match propSchema.description with
   | some d => ["    /// " ++ d]
   | none => [])
  ++ (if ¬isRequired ∨ pyStartsWith rustType "Option<" = true then
        ["    #[serde(skip_serializing_if = \"Option::is_none\")]"]
        ++ (if needsRename then ["    #[serde(rename = \"" ++ propName ++ "\")]"] else [])
      else if needsRename then ["    #[serde(rename = \"" ++ propName ++ "\")]"] else [])
  ++ ["    pub " ++ fieldName ++ ": " ++ rustType ++ ",", ""]

/-- The fixed block emitted for a `links` property (regardless of that
property's schema or required-ness). -/
def linksBlock : List String :=
  ["    /// HATEOAS links",
   "    #[serde(skip_serializing_if = \"Option::is_none\")]",
   "    pub links: Option<Vec<HashMap<String, Value>>>,",
   ""]

/-- The fixed catch-all `extra` block closing every struct. -/
def extraBlock : List String :=
  ["    /// Additional fields from the API",
   "    #[serde(flatten)]",
   "    pub extra: Value,",
   "\x7d"]

/-- The struct-name fix of `generate_struct`: capitalize a name starting with
a lowercase letter. -/
def structName (name : String) : String :=
  match name.data with
  | [] => name
  | c :: _ => if pyCharIsLower c then pyCapitalize name else name

/-- The `has_camel` test of `generate_struct`. -/
def structHasCamel (schema : Schema) : Bool :=
  (schema.properties.getD []).any (fun p => camelMixed p.1)

/-- The lines of `generate_struct` up to and including `pub struct N {`. -/
def structHeaderLines (name : String) (schema : Schema) : List String :=
  ["/// " ++ schema.description.getD (structName name),
   "#[derive(Debug, Clone, Serialize, Deserialize)]"]
  ++ (if structHasCamel schema then ["#[serde(rename_all = \"camelCase\")]"] else [])
  ++ ["pub struct " ++ structName name ++ " \x7b"]

/-- `generate_struct(name, schema, schemas)` as the list of emitted lines
(the `schemas` argument is unused by the source). -/
def generate_struct (name : String) (schema : Schema) : List String :=
  let properties := schema.properties.getD []
  let requiredFields := schema.required.getD []
  structHeaderLines name schema
  ++ properties.flatMap
       (fun p =>
         if p.1 = "links" then []
         else structFieldLines (structHasCamel schema) requiredFields p.1 p.2)
  ++ (if properties.any (fun p => p.1 == "links") then linksBlock else [])
  ++ extraBlock

/-!  `generate_enum` (generate_from_openapi.py lines 125-151), as the list of
emitted lines.  Its `to_pascal_case` is textually identical to the one
embedded above. -/

/-- Variant naming: hyphens and dots to underscores, then PascalCase. -/
def enumVariantName (v : String) : String :=
  to_pascal_case (pyReplace (pyReplace v "-" "_") "." "_")

/-- The blanket `#[serde(rename_all = ...)]` line choice of `generate_enum`:
kebab if any value has a hyphen, else UPPERCASE if all values are upper, else
lowercase if all values are lower, else none. -/
def enumCaseLines (values : List String) : List String :=
  if values.any (fun v => v.data.contains '-') then
    ["#[serde(rename_all = \"kebab-case\")]"]
  else if values.all pyIsUpperStr then
    ["#[serde(rename_all = \"UPPERCASE\")]"]
  else if values.all pyIsLowerStr then
    ["#[serde(rename_all = \"lowercase\")]"]
  else []

/-- The lines for one enum value: a per-value rename when the literal differs
from the variant name, then the variant line. -/
def enumValueLines (v : String) : List String :=
  let variant := enumVariantName v
  (if v ≠ variant then ["    #[serde(rename = \"" ++ v ++ "\")]"] else [])
  ++ ["    " ++ variant ++ ","]

/-- `generate_enum(name, values)` as the list of emitted lines. -/
def generate_enum (name : String) (values : List String) : List String :=
  ["/// " ++ name, "#[derive(Debug, Clone, Serialize, Deserialize)]"]
  ++ enumCaseLines values
  ++ ["pub enum " ++ name ++ " \x7b"]
  ++ values.flatMap enumValueLines
  ++ ["\x7d"]

/-!  The emission-ordering step of `generate_module`
(generate_from_openapi_v2.py lines 411-426).

The Python `used_schemas` set is modelled as a list of distinct names; the
`while remaining:` loop scans a snapshot of `remaining`, appends every schema
with no blocking dependency to `sorted_schemas` and removes it from
`remaining`, and repeats.  `emitOrderGo` drives the loop with fuel and returns
`none` when the loop has not terminated within the given fuel — with any fuel,
for a pure cycle. -/

def lookupSchema (schemas : List (String × Schema)) (n : String) : Schema :=
  ((schemas.find? (fun x => x.1 == n)).map (fun x => x.2)).getD emptySchema

/-- The dependency names the sort step extracts from one schema: the `$ref`
of each property value (array-item references are not examined here). -/
def directPropRefs (s : Schema) : List String :=
  (s.properties.getD []).filterMap (fun p => p.2.ref.map refTail)

/-- The emptiness test of the per-schema `deps` set built by the sort: some
direct property reference still in `remaining` and different from the schema
itself. -/
def hasBlockingDep (remaining : List String) (selfName : String) (s : Schema) : Bool :=
  (directPropRefs s).any (fun d => remaining.contains d && d != selfName)

/-- The body of the snapshot scan: a schema with no blocking dependency is
appended to `sorted_schemas` and removed from `remaining`. -/
def sortStep (schemas : List (String × Schema)) (acc : List String × List String)
    (name : String) : List String × List String :=
  if hasBlockingDep acc.2 name (lookupSchema schemas name) then acc
  else (acc.1 ++ [name], acc.2.erase name)

/-- One iteration of the `while remaining:` body: scan the snapshot of
`remaining` (the state's second component), moving every ready schema to
`sorted_schemas` (the first component). -/
def passStep (schemas : List (String × Schema)) (st : List String × List String) :
    List String × List String :=
  st.2.foldl (sortStep schemas) st

/-- The `while remaining:` loop, driven by fuel; `none` means the loop is
still running when the fuel ends. -/
def emitOrderGo (schemas : List (String × Schema)) :
    Nat → List String × List String → Option (List String)
  | 0, st => if st.2.isEmpty then some st.1 else none
  | fuel + 1, st =>
    if st.2.isEmpty then some st.1
    else emitOrderGo schemas fuel (passStep schemas st)

/-- The reference edges followed by `collect_nested_schemas` out of a
property: a direct `$ref`, or the `$ref` of the items of an array-typed
property.  This is the "references directly as a property or through an
array-item reference" relation of the specification. -/
def propEdgeRefs (s : Schema) : List String :=
  (s.properties.getD []).filterMap (fun p =>
    match p.2.ref with
    | some r => some (refTail r)
    | none =>
      match p.2.typ, p.2.items with
      | some t, some it => if t = "array" then it.ref.map refTail else none
      | _, _ => none)

/-- The models section filter of `generate_module` (lines 428-437): a sorted
name is emitted as a struct when it is a known schema and not an enum. -/
def structEmitted (schemas : List (String × Schema)) (n : String) : Bool :=
  match schemas.find? (fun x => x.1 == n) with
  | some x => x.2.enum.isNone
  | none => false

/-!  `generate_handler_method` (generate_from_openapi_v2.py lines 212-350),
as the list of emitted lines. -/

/-- One entry of an operation's `parameters` list. -/
structure Param where
  loc : String
  name : String
  required : Bool
  schema : Option Schema

/-- A non-empty `requestBody` dictionary; `jsonSchema` is present exactly when
`content` has an `application/json` entry, holding that entry's schema
(`{}` when the `schema` key is missing). -/
structure ReqBody where
  jsonSchema : Option Schema

/-- One response dictionary: its `application/json` content schema, if any,
and whether the dictionary has any other key (for Python truthiness). -/
structure ApiResponse where
  jsonSchema : Option Schema
  otherKeys : Bool

/-- An operation dictionary.  `operationId`, `summary`, `description` model
`operation.get(k, '')`; an absent `requestBody` or the falsy `{}` are both
`none`. -/
structure Operation where
  operationId : String
  summary : String
  descr : String
  parameters : List Param
  requestBody : Option ReqBody
  responses : List (String × ApiResponse)

/-- Python truthiness of a response dict. -/
def responseFalsy (r : ApiResponse) : Bool := r.jsonSchema.isNone && !r.otherKeys

/-- `responses.get(code)` filtered by truthiness. -/
def truthyResponse (op : Operation) (code : String) : Option ApiResponse :=
  match (op.responses.find? (fun x => x.1 == code)).map (fun x => x.2) with
  | some r => if responseFalsy r then none else some r
  | none => none

/-- `responses.get('200') or responses.get('201') or responses.get('202')`. -/
def successResponse (op : Operation) : Option ApiResponse :=
  (truthyResponse op "200").orElse
    (fun _ => (truthyResponse op "201").orElse (fun _ => truthyResponse op "202"))

/-- The inferred return type (lines 266-278): the raw `$ref` tail or mapped
type of the first truthy success response's JSON schema, else `"()"`. -/
def returnTypeOf (op : Operation) : String :=
  match successResponse op with
  | some resp =>
    match resp.jsonSchema with
    | some s =>
      match s.ref with
      | some r => refTail r
      | none => rust_type_from_openapi s true
    | none => "()"
  | none => "()"

def pathParamsOf (op : Operation) : List Param :=
  op.parameters.filter (fun p => p.loc == "path")

def queryParamsOf (op : Operation) : List Param :=
  op.parameters.filter (fun p => p.loc == "query")

/-- The path with every `{param}` placeholder of a path parameter replaced by
`{}` (lines 301-304). -/
def pathFormatted (path : String) (pps : List Param) : String :=
  pps.foldl (fun pf p => pyReplace pf ("\x7b" ++ p.name ++ "\x7d") "\x7b\x7d") path

/-- `', '.join(to_snake_case(p['name']) for p in path_params)`. -/
def formatArgs (pps : List Param) : String :=
  String.intercalate ", " (pps.map (fun p => to_snake_case p.name))

/-- The URL argument expression of the emitted client call (lines 306-315). -/
def urlOf (path : String) (op : Operation) : String :=
  let pps := pathParamsOf op
  let qps := queryParamsOf op
  if !pps.isEmpty then
    if !qps.isEmpty then
      "&format!(\"" ++ pathFormatted path pps ++ "\x7b\x7d\", " ++ formatArgs pps
        ++ ", query_string)"
    else
      "&format!(\"" ++ pathFormatted path pps ++ "\", " ++ formatArgs pps ++ ")"
  else if !qps.isEmpty then
    "&format!(\"" ++ path ++ "\x7b\x7d\", query_string)"
  else "\"" ++ path ++ "\""

/-- The emitted method name (line 225). -/
def methodNameOf (path method : String) (op : Operation) : String :=
  if op.operationId ≠ "" then clean_method_name op.operationId method
  else method ++ "_" ++ pyReplace path "/" "_"

/-- The doc-comment lines (lines 228-234). -/
def handlerDocLines (path method : String) (op : Operation) : List String :=
  (if op.summary ≠ "" then ["    /// " ++ op.summary] else [])
  ++ (if op.descr ≠ "" ∧ op.descr ≠ op.summary then
        (splitChar '\n' op.descr.data).map (fun l => "    /// " ++ String.mk l)
      else [])
  ++ ["    ///", "    /// " ++ pyUpper method ++ " " ++ path]

/-- One signature parameter line. -/
def paramLine (p : Param) (req : Bool) : String :=
  "        " ++ to_snake_case p.name ++ ": "
    ++ rust_type_from_openapi (p.schema.getD emptySchema) req ++ ","

/-- The `request: &...` signature lines for a JSON request body (lines
254-263). -/
def bodyParamLines (op : Operation) : List String :=
  match op.requestBody with
  | some rb =>
    match rb.jsonSchema with
    | some s =>
      match s.ref with
      | some r => ["        request: &" ++ refTail r ++ ","]
      | none => ["        request: &Value,"]
    | none => []
  | none => []

/-- The query-string assembly block (lines 283-298). -/
def queryBlockLines (op : Operation) : List String :=
  let qps := queryParamsOf op
  if !qps.isEmpty then
    ["        let mut query = Vec::new();"]
    ++ qps.flatMap (fun p =>
        let pn := to_snake_case p.name
        if p.required then
          ["        query.push(format!(\"" ++ p.name ++ "=\x7b\x7d\", " ++ pn ++ "));"]
        else
          ["        if let Some(v) = " ++ pn ++ " \x7b",
           "            query.push(format!(\"" ++ p.name ++ "=\x7b\x7d\", v));",
           "        \x7d"])
    ++ ["        let query_string = if query.is_empty() \x7b",
        "            String::new()",
        "        \x7d else \x7b",
        "            format!(\"?\x7b\x7d\", query.join(\"&\"))",
        "        \x7d;"]
  else []

/-- The verb-specific client invocation lines (lines 317-346). -/
def callLines (path method : String) (op : Operation) : List String :=
  let url := urlOf path op
  if method = "get" then ["        self.client.get(" ++ url ++ ").await"]
  else if method = "post" then
    (if op.requestBody.isSome then ["        self.client.post(" ++ url ++ ", request).await"]
     else ["        self.client.post(" ++ url ++ ", &serde_json::json!(\x7b\x7d)).await"])
  else if method = "put" then
    (if op.requestBody.isSome then ["        self.client.put(" ++ url ++ ", request).await"]
     else ["        self.client.put(" ++ url ++ ", &serde_json::json!(\x7b\x7d)).await"])
  else if method = "patch" then
    (if op.requestBody.isSome then ["        self.client.patch(" ++ url ++ ", request).await"]
     else ["        self.client.patch(" ++ url ++ ", &serde_json::json!(\x7b\x7d)).await"])
  else if method = "delete" then
    (if op.requestBody.isSome then
       ["        // TODO: DELETE with body not yet supported by client",
        "        let _ = request; // Suppress unused variable warning"]
     else [])
    ++ (if returnTypeOf op = "()" then
          ["        self.client.delete(" ++ url ++ ").await"]
        else
          ["        let response = self.client.delete_raw(" ++ url ++ ").await?;",
           "        serde_json::from_value(response).map_err(Into::into)"])
  else []

/-- `generate_handler_method(path, method, operation, schemas)` as the list
of emitted lines. -/
def generate_handler_method (path method : String) (op : Operation) : List String :=
  handlerDocLines path method op
  ++ ["    pub async fn " ++ methodNameOf path method op ++ "(", "        &self,"]
  ++ (pathParamsOf op).map (fun p => paramLine p true)
  ++ (queryParamsOf op).map (fun p => paramLine p p.required)
  ++ bodyParamLines op
  ++ ["    ) -> Result<" ++ returnTypeOf op ++ "> \x7b"]
  ++ queryBlockLines op
  ++ callLines path method op
  ++ ["    \x7d"]

/-- The emitted type sequence of a module: the sort result restricted to the
names emitted as structs (known schemas that are not enums). -/
def emittedStructNames (schemas : List (String × Schema)) (sorted : List String) :
    List String :=
  sorted.filter (structEmitted schemas)

/-- The original string with its first character upper-cased and every other
character untouched ("equal up to the case of the first letter"). -/
def upperFirst (s : String) : String :=
  match s.data with
  | [] => ""
  | c :: cs => String.mk (pyCharUpper c :: cs)

/-!  Concrete input documents used by the theorems below. -/

/-- `{"type": "string"}`. -/
def strSchema : Schema := .mk none (some "string") none none none none none none false

/-- `{"type": "string", "format": "date-time"}`. -/
def dateTimeSchema : Schema :=
  .mk none (some "string") (some "date-time") none none none none none false

/-- The `widget` scenario schema of the specification. -/
def widgetSchema : Schema :=
  .mk none (some "object") none none none
    (some [("id", strSchema), ("createdAt", dateTimeSchema)]) (some ["id"]) none false

/-- `{"$ref": "#/components/schemas/<n>"}`. -/
def refToSchema (n : String) : Schema :=
  .mk (some ("#/components/schemas/" ++ n)) none none none none none none none false

/-- `{"type": "array", "items": {"$ref": ...<n>}}`. -/
def arrayOfRefSchema (n : String) : Schema :=
  .mk none (some "array") none none (some (refToSchema n)) none none none false

/-- Two schemas referencing each other through object properties: a pure
dependency cycle. -/
def cycleSchemas : List (String × Schema) :=
  [("A", .mk none (some "object") none none none (some [("b", refToSchema "B")]) none none false),
   ("B", .mk none (some "object") none none none (some [("a", refToSchema "A")]) none none false)]

/-- Schema `A` references `B` only through an array-item reference; `B` is a
plain object. -/
def arrayDepSchemas : List (String × Schema) :=
  [("A", .mk none (some "object") none none none (some [("xs", arrayOfRefSchema "B")]) none none false),
   ("B", .mk none (some "object") none none none (some [("x", strSchema)]) none none false)]

/-- Schema `A` references `B` through a direct property reference; `B` is a
plain object. -/
def chainSchemas : List (String × Schema) :=
  [("A", .mk none (some "object") none none none (some [("b", refToSchema "B")]) none none false),
   ("B", .mk none (some "object") none none none (some [("x", strSchema)]) none none false)]

/-- An object schema whose `links` property is declared as a required string,
and whose `foo` property is the empty schema `{}` and not required. -/
def linksRequiredSchema : Schema :=
  .mk none (some "object") none none none
    (some [("links", strSchema), ("foo", emptySchema)]) (some ["links"]) none false

/-- A DELETE operation with a 200 response returning `Widget` and no request
body (the specification's DELETE scenario). -/
def deleteTypedOp : Operation :=
  { operationId := "deleteWidgetById", summary := "", descr := "",
    parameters := [{ loc := "path", name := "id", required := true, schema := some strSchema }],
    requestBody := none,
    responses := [("200", { jsonSchema := some (refToSchema "Widget"), otherKeys := true })] }

/-- A DELETE operation that declares a JSON request body and has no success
response content (unit return type). -/
def deleteBodyOp : Operation :=
  { operationId := "deleteWidgetById", summary := "", descr := "",
    parameters := [{ loc := "path", name := "id", required := true, schema := some strSchema }],
    requestBody := some { jsonSchema := some (refToSchema "WidgetDeleteRequest") },
    responses := [("204", { jsonSchema := none, otherKeys := true })] }

/-!  Statement-side definitions used by the theorems below. -/

/-- The order relation the sort establishes between two emitted names: a
direct property reference from `x` to a distinct `y` never points forward. -/

def sortRel (schemas : List (String × Schema)) (x y : String) : Prop :=
  y ∈ directPropRefs (lookupSchema schemas x) → y = x

/-- Invariant of the sort state: both lists are duplicate-free and disjoint,
the emitted part is dependency-ordered, and no emitted schema has a pending
direct property reference left in `remaining`. -/

def SortInv (schemas : List (String × Schema)) (st : List String × List String) : Prop :=
  st.1.Nodup ∧ st.2.Nodup ∧ (∀ x ∈ st.1, x ∉ st.2) ∧
  st.1.Pairwise (sortRel schemas) ∧
  (∀ x ∈ st.1, ∀ y ∈ directPropRefs (lookupSchema schemas x), y ≠ x → y ∉ st.2)

/-- The `(type, format)` table lookup with its `Value` default, as performed
inside `rust_type_from_openapi`. -/

def typeLookup (s : Schema) : String :=
  ((type_map.find? (fun e => e.1 == (s.typ.getD "object", s.format.getD ""))).map
    (fun e => e.2)).getD "Value"

/-- Modelled from the claim as stated: strip one leading HTTP-verb-name
prefix if present, convert to word-delimited lowercase, then apply exactly
the four verb-specific rules. -/

def claimedCleanMethodName (operation_id method : String) : String :=
  let name :=
    match httpVerbs.find? (fun p => pyStartsWith (pyLower operation_id) p) with
    | some p => pyDropChars operation_id p.data.length
    | none => operation_id
  let name := to_snake_case name
  if method = "get" ∧ name = "" then "get"
  else if method = "get" ∧ ¬(pyStartsWith name "list" = true ∨ pyStartsWith name "get" = true) then
    "get_" ++ name
  else if method = "post" ∧ pyStartsWith name "create" = false then
    (if pyContainsSub (pyLower operation_id) "create" then "create_" ++ name else name)
  else if method = "delete" ∧ pyStartsWith name "delete" = false then
    (if name ≠ "" then "delete_" ++ name else "delete")
  else name

/-- Stage 1 of the amended claim: each HTTP verb name, in the order get,
post, put, delete, patch, is tried once against the lower-cased start of the
identifier and stripped when it matches, so several prefixes can be stripped
in sequence. -/

def stripVerbStage : List String → String → String
  | [], n => n
  | p :: ps, n =>
    stripVerbStage ps (if pyStartsWith (pyLower n) p then pyDropChars n p.data.length else n)

/-- Stage 3 of the amended claim: the prefix-replacement table
(`get_all_` to `list_`, `get_` removed, a leading `_by_id` removed, and the
identity entries), each entry tried once in order. -/

def replacementStage : List (String × String) → String → String
  | [], n => n
  | r :: rs, n =>
    replacementStage rs (if pyStartsWith n r.1 then r.2 ++ pyDropChars n r.1.data.length else n)

/-- Stage 4 of the amended claim: the verb-specific rules, grouped by verb:
get-derived empty name becomes `get`; a get-derived name not starting with
`list`/`get` is prefixed `get_`; a post-derived name is prefixed `create_`
when the original identifier mentions create and the name is not already so
prefixed; a delete-derived empty name becomes `delete`, any other not already
prefixed `delete_`. -/

def verbRuleStage (operation_id method nm : String) : String :=
  if method = "get" then
    (if nm = "" then "get"
     else if pyStartsWith nm "list" = true ∨ pyStartsWith nm "get" = true then nm
     else "get_" ++ nm)
  else if method = "post" then
    (if pyStartsWith nm "create" = true then nm
     else if pyContainsSub (pyLower operation_id) "create" then "create_" ++ nm else nm)
  else if method = "delete" then
    (if pyStartsWith nm "delete" = true then nm
     else if nm = "" then "delete" else "delete_" ++ nm)
  else nm

/-- The amended claim's normalizer: multi-prefix strip, `to_snake_case`, the
replacement table, then the verb rules. -/

def amendedCleanMethodName (operation_id method : String) : String :=
  verbRuleStage operation_id method
    (replacementStage methodReplacements (to_snake_case (stripVerbStage httpVerbs operation_id)))

def alnumChar (c : Char) : Bool := pyCharIsAlpha c || pyCharIsDigit c

/-- No uppercase letter directly follows another uppercase letter. -/

def noTwoUppers (l : List Char) : Prop :=
  List.Chain' (fun a b => ¬(pyCharIsUpper a = true ∧ pyCharIsUpper b = true)) l

/-- The words-level payload of `to_pascal_case`. -/

def pascalWords (l : List Char) : List Char :=
  ((splitChar '_' l).map pyCapitalizeChars).flatten

/-!  Theorems settling the claims. -/

/-!  Character-table lemmas: facts about the ASCII case functions, proved by
one evaluation over the 26-entry table. -/

theorem asciiPairs_facts : asciiPairs.all (fun q =>
    (pyCharLower q.1 == q.2) && (pyCharUpper q.2 == q.1) &&
    pyCharIsLower q.2 && !pyCharIsUpper q.2 && !pyCharIsLower q.1 &&
    pyCharIsAlpha q.1 && pyCharIsAlpha q.2) = true := by decide

theorem upper_entry {c : Char} (h : pyCharIsUpper c = true) :
    ∃ q ∈ asciiPairs, q.1 = c := by
  rcases List.any_eq_true.mp h with ⟨q, hq, hqc⟩
  exact ⟨q, hq, by exact beq_iff_eq.mp hqc⟩

theorem pyCharLower_of_not_upper {c : Char} (h : pyCharIsUpper c = false) :
    pyCharLower c = c := by
  unfold pyCharLower
  have hn : asciiPairs.find? (fun p => p.1 == c) = none := by
    rw [List.find?_eq_none]
    intro p hp hpc
    have ht : pyCharIsUpper c = true := List.any_eq_true.mpr ⟨p, hp, hpc⟩
    rw [h] at ht
    exact Bool.false_ne_true ht
  rw [hn]

theorem pyCharUpper_of_not_lower {c : Char} (h : pyCharIsLower c = false) :
    pyCharUpper c = c := by
  unfold pyCharUpper
  have hn : asciiPairs.find? (fun p => p.2 == c) = none := by
    rw [List.find?_eq_none]
    intro p hp hpc
    have ht : pyCharIsLower c = true := List.any_eq_true.mpr ⟨p, hp, hpc⟩
    rw [h] at ht
    exact Bool.false_ne_true ht
  rw [hn]

theorem entry_facts {q : Char × Char} (hq : q ∈ asciiPairs) :
    pyCharLower q.1 = q.2 ∧ pyCharUpper q.2 = q.1 ∧ pyCharIsLower q.2 = true ∧
    pyCharIsUpper q.2 = false ∧ pyCharIsLower q.1 = false ∧
    pyCharIsAlpha q.1 = true ∧ pyCharIsAlpha q.2 = true := by
  have h := List.all_eq_true.mp asciiPairs_facts q hq
  simp only [Bool.and_eq_true, beq_iff_eq, Bool.not_eq_true'] at h
  tauto

theorem pyCharLower_upper_entry {c : Char} (h : pyCharIsUpper c = true) :
    ∃ q ∈ asciiPairs, q.1 = c ∧ pyCharLower c = q.2 := by
  rcases upper_entry h with ⟨q, hq, hqc⟩
  exact ⟨q, hq, hqc, by rw [← hqc]; exact (entry_facts hq).1⟩

theorem pyCharIsUpper_pyCharLower (c : Char) : pyCharIsUpper (pyCharLower c) = false := by
  by_cases h : pyCharIsUpper c = true
  · rcases pyCharLower_upper_entry h with ⟨q, hq, _, hl⟩
    rw [hl]; exact (entry_facts hq).2.2.2.1
  · rw [pyCharLower_of_not_upper (by simpa using h)]
    simpa using h

theorem pyCharUpper_pyCharLower (c : Char) :
    pyCharUpper (pyCharLower c) = pyCharUpper c := by
  by_cases h : pyCharIsUpper c = true
  · rcases pyCharLower_upper_entry h with ⟨q, hq, hqc, hl⟩
    rw [hl, (entry_facts hq).2.1, hqc,
      pyCharUpper_of_not_lower (by rw [← hqc]; exact (entry_facts hq).2.2.2.2.1)]
  · rw [pyCharLower_of_not_upper (by simpa using h)]

theorem pyCharLower_idem (c : Char) : pyCharLower (pyCharLower c) = pyCharLower c :=
  pyCharLower_of_not_upper (pyCharIsUpper_pyCharLower c)

theorem pyCharLower_eq_non_alpha {c t : Char} (ht : pyCharIsAlpha t = false)
    (h : pyCharLower c = t) : c = t := by
  by_cases hc : pyCharIsUpper c = true
  · rcases pyCharLower_upper_entry hc with ⟨q, hq, _, hl⟩
    rw [hl] at h
    exact absurd ((h ▸ (entry_facts hq).2.2.2.2.2.2 : pyCharIsAlpha t = true)) (by simp [ht])
  · rw [pyCharLower_of_not_upper (by simpa using hc)] at h
    exact h

theorem pyCharUpper_eq_non_alpha {c t : Char} (ht : pyCharIsAlpha t = false)
    (h : pyCharUpper c = t) : c = t := by
  by_cases hc : pyCharIsLower c = true
  · rcases List.any_eq_true.mp hc with ⟨q, hq, hqc⟩
    have hqc' : q.2 = c := beq_iff_eq.mp hqc
    have : pyCharUpper c = q.1 := by rw [← hqc']; exact (entry_facts hq).2.1
    rw [this] at h
    have : pyCharIsAlpha q.1 = true := (entry_facts hq).2.2.2.2.2.1
    rw [h] at this
    exact absurd this (by simp [ht])
  · rw [pyCharUpper_of_not_lower (by simpa using hc)] at h
    exact h

theorem digit_not_cased {c : Char} (h : pyCharIsDigit c = true) :
    pyCharIsUpper c = false ∧ pyCharIsLower c = false := by
  have hmem : c ∈ ("0123456789").data := by
    simpa [pyCharIsDigit] using h
  have hall : (("0123456789").data).all
      (fun d => !pyCharIsUpper d && !pyCharIsLower d) = true := by decide
  have := List.all_eq_true.mp hall c hmem
  simp only [Bool.and_eq_true, Bool.not_eq_true'] at this
  exact this

theorem upper_not_lower {c : Char} (h : pyCharIsUpper c = true) :
    pyCharIsLower c = false := by
  rcases upper_entry h with ⟨q, hq, hqc⟩
  rw [← hqc]; exact (entry_facts hq).2.2.2.2.1

/-- C1: with a pure dependency cycle in the collected set, the
emission-ordering loop of `generate_module` never terminates: no pass makes
progress, so the `while remaining:` loop runs forever with any fuel, instead
of raising a fatal generation error naming the offending schemas. -/
theorem c1_pure_cycle_never_terminates :
    ∀ fuel : Nat, emitOrderGo cycleSchemas fuel ([], ["A", "B"]) = none := by
  intro fuel
  induction fuel with
  | zero => rfl
  | succ n ih =>
    have hp : passStep cycleSchemas ([], ["A", "B"]) = ([], ["A", "B"]) := by decide
    simp only [emitOrderGo, List.isEmpty, hp]
    exact ih

/-- C9: the `widget` scenario — `generate_struct` on the schema with required
string `id` and optional date-time `createdAt` emits type `Widget` with a
required `String` field `id`, an optional `Option<String>` field
`created_at`, the whole-type camelCase serde annotation, and the catch-all
`extra` field. -/
theorem c9_widget_scenario :
    generate_struct "widget" widgetSchema =
      ["/// Widget",
       "#[derive(Debug, Clone, Serialize, Deserialize)]",
       "#[serde(rename_all = \"camelCase\")]",
       "pub struct Widget \x7b",
       "    pub id: String,",
       "",
       "    #[serde(skip_serializing_if = \"Option::is_none\")]",
       "    pub created_at: Option<String>,",
       "",
       "    /// Additional fields from the API",
       "    #[serde(flatten)]",
       "    pub extra: Value,",
       "\x7d"] := by decide

/-- C2 counterexample: schema `A` references `B` only through an array-item
reference; the emission sort ignores array-item references, emits both as
structs, and places `A` (index 0) before `B` (index 1), so the referenced
schema does not precede the referencing one. -/
theorem c2_array_ref_order_violated :
    emitOrderGo arrayDepSchemas 3 ([], ["A", "B"]) = some ["A", "B"]
    ∧ emittedStructNames arrayDepSchemas ["A", "B"] = ["A", "B"]
    ∧ "B" ∈ propEdgeRefs (lookupSchema arrayDepSchemas "A")
    ∧ List.indexOf "A" ["A", "B"] = 0 ∧ List.indexOf "B" ["A", "B"] = 1 := by
  refine ⟨by decide, by decide, by decide, by decide, by decide⟩

/-!  The dependency-order invariant of the emission sort. -/

theorem hasBlockingDep_false_iff {rem : List String} {n : String} {s : Schema} :
    hasBlockingDep rem n s = false ↔ ∀ d ∈ directPropRefs s, d ∈ rem → d = n := by
  simp only [hasBlockingDep, List.any_eq_false, Bool.and_eq_true, bne_iff_ne,
    List.elem_iff, not_and, not_ne_iff]

theorem sortStep_inv {schemas : List (String × Schema)}
    {st : List String × List String} {a : String}
    (hinv : SortInv schemas st) (ha : a ∈ st.2) :
    SortInv schemas (sortStep schemas st a)
    ∧ ∀ b ∈ st.2, b ≠ a → b ∈ (sortStep schemas st a).2 := by
  obtain ⟨h1, h2, h3, h4, h5⟩ := hinv
  unfold sortStep
  by_cases hb : hasBlockingDep st.2 a (lookupSchema schemas a) = true
  · simp only [hb, if_true]
    exact ⟨⟨h1, h2, h3, h4, h5⟩, fun b hbm _ => hbm⟩
  · have hbf := hasBlockingDep_false_iff.mp (Bool.eq_false_iff.mpr hb)
    simp only [Bool.eq_false_iff.mpr hb, Bool.false_eq_true, if_false]
    refine ⟨⟨?_, ?_, ?_, ?_, ?_⟩, ?_⟩
    · refine h1.append (List.nodup_singleton a) ?_
      intro x hx hxa
      rw [List.mem_singleton] at hxa
      exact h3 x hx (hxa ▸ ha)
    · exact h2.erase a
    · intro x hx
      rcases List.mem_append.mp hx with hx1 | hx1
      · exact fun hmem => h3 x hx1 (List.mem_of_mem_erase hmem)
      · rw [List.mem_singleton] at hx1
        exact hx1 ▸ h2.not_mem_erase
    · refine List.pairwise_append.mpr ⟨h4, List.pairwise_singleton _ _, ?_⟩
      intro x hx y hy
      rw [List.mem_singleton] at hy
      subst hy
      intro href
      by_contra hne
      exact h5 x hx y href hne ha
    · intro x hx y hy hne
      rcases List.mem_append.mp hx with hx1 | hx1
      · exact fun hmem => h5 x hx1 y hy hne (List.mem_of_mem_erase hmem)
      · rw [List.mem_singleton] at hx1
        subst hx1
        intro hmem
        exact hne (hbf y hy (List.mem_of_mem_erase hmem))
    · intro b hbm hba
      exact (List.mem_erase_of_ne hba).mpr hbm

theorem sortFold_inv {schemas : List (String × Schema)} :
    ∀ (ss : List String) (st : List String × List String),
      SortInv schemas st → (∀ b ∈ ss, b ∈ st.2) → ss.Nodup →
      SortInv schemas (ss.foldl (sortStep schemas) st) := by
  intro ss
  induction ss with
  | nil => exact fun st h _ _ => h
  | cons a ss ih =>
    intro st hinv hmem hnd
    rw [List.foldl_cons]
    have ha : a ∈ st.2 := hmem a (List.mem_cons_self a ss)
    obtain ⟨hinv2, hkeep⟩ := sortStep_inv hinv ha
    refine ih _ hinv2 ?_ (List.nodup_cons.mp hnd).2
    intro b hbm
    refine hkeep b (hmem b (List.mem_cons_of_mem a hbm)) ?_
    intro hba
    exact (List.nodup_cons.mp hnd).1 (hba ▸ hbm)

theorem passStep_inv {schemas : List (String × Schema)}
    {st : List String × List String} (hinv : SortInv schemas st) :
    SortInv schemas (passStep schemas st) :=
  sortFold_inv st.2 st hinv (fun _ hb => hb) hinv.2.1

theorem emitOrderGo_inv {schemas : List (String × Schema)} :
    ∀ (fuel : Nat) (st : List String × List String) (res : List String),
      SortInv schemas st → emitOrderGo schemas fuel st = some res →
      res.Pairwise (sortRel schemas) ∧ res.Nodup := by
  intro fuel
  induction fuel with
  | zero =>
    intro st res hinv h
    unfold emitOrderGo at h
    split at h
    · cases h
      exact ⟨hinv.2.2.2.1, hinv.1⟩
    · cases h
  | succ n ih =>
    intro st res hinv h
    unfold emitOrderGo at h
    split at h
    · cases h
      exact ⟨hinv.2.2.2.1, hinv.1⟩
    · exact ih (passStep schemas st) res (passStep_inv hinv) h

/-- C2 amended: for a duplicate-free collected set on which the emission sort
terminates, the emitted struct sequence respects direct property references:
whenever emitted type `A` references a distinct emitted type `B` through a
direct property `$ref`, `B`'s index precedes `A`'s.  (Array-item references
are not tracked by the sort — see the counterexample.) -/
theorem c2_amended_dependency_order (schemas : List (String × Schema))
    (names : List String) (fuel : Nat) (res : List String)
    (hnd : names.Nodup)
    (hrun : emitOrderGo schemas fuel ([], names) = some res) :
    ∀ (i j : Nat) (hi : i < (emittedStructNames schemas res).length)
      (hj : j < (emittedStructNames schemas res).length),
      (emittedStructNames schemas res)[j] ∈
        directPropRefs (lookupSchema schemas ((emittedStructNames schemas res)[i])) →
      (emittedStructNames schemas res)[i] ≠ (emittedStructNames schemas res)[j] →
      j < i := by
  have hinv : SortInv schemas ([], names) := by
    refine ⟨List.nodup_nil, hnd, ?_, List.Pairwise.nil, ?_⟩
    · intro x hx
      cases hx
    · intro x hx
      cases hx
  obtain ⟨hpw, hnodup⟩ := emitOrderGo_inv fuel ([], names) res hinv hrun
  have hpwE : (emittedStructNames schemas res).Pairwise (sortRel schemas) :=
    hpw.filter _
  intro i j hi hj href hne
  rcases Nat.lt_trichotomy i j with hij | hij | hij
  · exact absurd (List.pairwise_iff_getElem.mp hpwE i j hi hj hij href) (Ne.symm hne)
  · subst hij
    exact absurd rfl hne
  · exact hij

/-- Witness for the amended C2 theorem: on the two-schema chain where `A`
property-references `B`, the sort emits `B` (index 0) before `A` (index 1),
and the theorem applies with all hypotheses discharged by evaluation. -/
theorem c2_amended_dependency_order_witness : (0 : Nat) < 1 :=
  c2_amended_dependency_order chainSchemas ["A", "B"] 3 ["B", "A"]
    (by decide) (by decide) 1 0 (by decide) (by decide) (by decide) (by decide)

/-!  The type mapper: totality and fallback defaults (C4), the optional
wrap (C3). -/

theorem rust_type_table_eval (s : Schema) (r : Bool) (h1 : s.ref = none)
    (h2 : s.enum = none) (h3 : schemaFalsy s = false)
    (h4 : ¬(s.typ.getD "object" = "array" ∧ s.items.isSome = true)) :
    rust_type_from_openapi s r =
      (if r then typeLookup s else "Option<" ++ typeLookup s ++ ">") := by
  rcases s with ⟨ref, typ, fmt, en, it, pr, rq, de, ot⟩
  simp only [Schema.ref] at h1
  simp only [Schema.enum] at h2
  simp only [Schema.typ, Schema.items] at h4
  subst h1
  subst h2
  simp only [rust_type_from_openapi, h3, Bool.false_eq_true, if_false,
    Option.isSome_none, typeLookup, Schema.typ, Schema.format]
  by_cases harr : typ.getD "object" = "array"
  · have hit : it = none := by
      cases it with
      | none => rfl
      | some x => exact absurd ⟨harr, rfl⟩ h4
    subst hit
    simp [harr]
  · simp [harr]

theorem type_map_no_array (f : String) :
    type_map.find? (fun e => e.1 == ("array", f)) = none := by
  rw [List.find?_eq_none]
  intro e he hbe
  have hall : type_map.all (fun e => e.1.1 != "array") = true := by decide
  have hne := bne_iff_ne.mp (List.all_eq_true.mp hall e he)
  exact hne (congrArg Prod.fst (beq_iff_eq.mp hbe))

/-- C4: the type mapper is total and degrades gracefully: the empty schema
maps to `Value`; a schema with no `$ref`/`enum` whose `(type, format)` pair is
not in the table (and is not an array with items) maps to `Value`; an integer
with unspecified format maps to `i32`; a number with unspecified format maps
to `f64`; an array lacking `items` maps to `Value`. -/
theorem c4_type_mapper_totality :
    (∀ r : Bool, rust_type_from_openapi emptySchema r = "Value")
    ∧ (∀ (s : Schema) (r : Bool), s.ref = none → s.enum = none →
        schemaFalsy s = false →
        type_map.find? (fun e => e.1 == (s.typ.getD "object", s.format.getD "")) = none →
        ¬(s.typ.getD "object" = "array" ∧ s.items.isSome = true) →
        rust_type_from_openapi s r = (if r then "Value" else "Option<Value>"))
    ∧ (∀ (s : Schema) (r : Bool), s.ref = none → s.enum = none →
        s.typ = some "integer" → s.format.getD "" = "" →
        rust_type_from_openapi s r = (if r then "i32" else "Option<i32>"))
    ∧ (∀ (s : Schema) (r : Bool), s.ref = none → s.enum = none →
        s.typ = some "number" → s.format.getD "" = "" →
        rust_type_from_openapi s r = (if r then "f64" else "Option<f64>"))
    ∧ (∀ (s : Schema) (r : Bool), s.ref = none → s.enum = none →
        s.typ = some "array" → s.items.isSome = false →
        rust_type_from_openapi s r = (if r then "Value" else "Option<Value>")) := by
  refine ⟨?_, ?_, ?_, ?_, ?_⟩
  · intro r
    cases r <;> rfl
  · intro s r h1 h2 h3 h4 h5
    rw [rust_type_table_eval s r h1 h2 h3 h5]
    have hl : typeLookup s = "Value" := by
      simp [typeLookup, h4]
    rw [hl]
    cases r <;> rfl
  · intro s r h1 h2 ht hf
    have h3 : schemaFalsy s = false := by
      simp [schemaFalsy, ht]
    have h5 : ¬(s.typ.getD "object" = "array" ∧ s.items.isSome = true) := by
      rw [ht]
      simp
    rw [rust_type_table_eval s r h1 h2 h3 h5]
    have hl : typeLookup s = "i32" := by
      simp only [typeLookup, ht, hf, Option.getD_some]
      decide
    rw [hl]
    cases r <;> rfl
  · intro s r h1 h2 ht hf
    have h3 : schemaFalsy s = false := by
      simp [schemaFalsy, ht]
    have h5 : ¬(s.typ.getD "object" = "array" ∧ s.items.isSome = true) := by
      rw [ht]
      simp
    rw [rust_type_table_eval s r h1 h2 h3 h5]
    have hl : typeLookup s = "f64" := by
      simp only [typeLookup, ht, hf, Option.getD_some]
      decide
    rw [hl]
    cases r <;> rfl
  · intro s r h1 h2 ht hi
    have h3 : schemaFalsy s = false := by
      simp [schemaFalsy, ht]
    have h5 : ¬(s.typ.getD "object" = "array" ∧ s.items.isSome = true) := by
      rw [hi]
      simp
    rw [rust_type_table_eval s r h1 h2 h3 h5]
    have hl : typeLookup s = "Value" := by
      simp [typeLookup, ht, type_map_no_array]
    rw [hl]
    cases r <;> rfl

/-- Witness for C4: the defaults evaluated on concrete schemas — unknown
`(string, weird)` yields `Value`, unspecified-format integer yields `i32`,
unspecified-format number yields `f64`, an array without items yields
`Value`. -/
theorem c4_type_mapper_totality_witness :
    rust_type_from_openapi (.mk none (some "string") (some "weird") none none none none none false) true = "Value"
    ∧ rust_type_from_openapi (.mk none (some "integer") none none none none none none false) true = "i32"
    ∧ rust_type_from_openapi (.mk none (some "number") none none none none none none false) false = "Option<f64>"
    ∧ rust_type_from_openapi (.mk none (some "array") none none none none none none false) true = "Value" := by
  refine ⟨?_, ?_, ?_, ?_⟩
  · exact c4_type_mapper_totality.2.1 _ true (by decide) (by decide) (by decide) (by decide) (by decide)
  · exact c4_type_mapper_totality.2.2.1 _ true (by decide) (by decide) (by decide) (by decide)
  · exact c4_type_mapper_totality.2.2.2.1 _ false (by decide) (by decide) (by decide) (by decide)
  · exact c4_type_mapper_totality.2.2.2.2 _ true (by decide) (by decide) (by decide) (by decide)

/-!  DELETE call shaping (C5). -/

theorem callLines_delete (path : String) (op : Operation) :
    callLines path "delete" op =
      (if op.requestBody.isSome then
        ["        // TODO: DELETE with body not yet supported by client",
         "        let _ = request; // Suppress unused variable warning"]
       else [])
      ++ (if returnTypeOf op = "()" then
            ["        self.client.delete(" ++ urlOf path op ++ ").await"]
          else
            ["        let response = self.client.delete_raw(" ++ urlOf path op ++ ").await?;",
             "        serde_json::from_value(response).map_err(Into::into)"]) := by
  simp [callLines]

theorem callLines_mem (path method : String) (op : Operation) :
    ∀ x ∈ callLines path method op, x ∈ generate_handler_method path method op := by
  intro x hx
  unfold generate_handler_method
  simp only [List.mem_append]
  tauto

/-- C5: for every DELETE operation, a non-unit inferred return type makes the
emitted method perform a raw `delete_raw` call followed by a typed re-decode
of the raw result; a unit return type makes it issue the plain no-body
`delete` call; and a declared request body makes the method carry the visible
TODO marker line. -/
theorem c5_delete_shape (path : String) (op : Operation) :
    (op.requestBody.isSome = true →
      "        // TODO: DELETE with body not yet supported by client"
        ∈ generate_handler_method path "delete" op)
    ∧ (returnTypeOf op ≠ "()" →
        ("        let response = self.client.delete_raw(" ++ urlOf path op ++ ").await?;")
          ∈ generate_handler_method path "delete" op
        ∧ "        serde_json::from_value(response).map_err(Into::into)"
          ∈ generate_handler_method path "delete" op)
    ∧ (returnTypeOf op = "()" →
        ("        self.client.delete(" ++ urlOf path op ++ ").await")
          ∈ generate_handler_method path "delete" op) := by
  refine ⟨?_, ?_, ?_⟩
  · intro hb
    apply callLines_mem
    rw [callLines_delete, hb]
    simp
  · intro hrt
    constructor
    · apply callLines_mem
      rw [callLines_delete]
      simp [hrt]
    · apply callLines_mem
      rw [callLines_delete]
      simp [hrt]
  · intro hrt
    apply callLines_mem
    rw [callLines_delete]
    simp [hrt]

/-- Witness for C5: on the DELETE-returning-`Widget` scenario the raw call
line is emitted, and on a body-declaring unit-returning DELETE both the TODO
marker and the plain delete call are emitted. -/
theorem c5_delete_shape_witness :
    ("        let response = self.client.delete_raw(&format!(\"/v1/widgets/\x7b\x7d\", id)).await?;")
      ∈ generate_handler_method "/v1/widgets/\x7bid\x7d" "delete" deleteTypedOp
    ∧ "        // TODO: DELETE with body not yet supported by client"
      ∈ generate_handler_method "/v1/widgets/\x7bid\x7d" "delete" deleteBodyOp
    ∧ ("        self.client.delete(&format!(\"/v1/widgets/\x7b\x7d\", id)).await")
      ∈ generate_handler_method "/v1/widgets/\x7bid\x7d" "delete" deleteBodyOp := by
  have hu1 : urlOf "/v1/widgets/\x7bid\x7d" deleteTypedOp
      = "&format!(\"/v1/widgets/\x7b\x7d\", id)" := by decide
  have hu2 : urlOf "/v1/widgets/\x7bid\x7d" deleteBodyOp
      = "&format!(\"/v1/widgets/\x7b\x7d\", id)" := by decide
  have h1 := (c5_delete_shape "/v1/widgets/\x7bid\x7d" deleteTypedOp).2.1 (by decide)
  have h2 := (c5_delete_shape "/v1/widgets/\x7bid\x7d" deleteBodyOp).1 (by decide)
  have h3 := (c5_delete_shape "/v1/widgets/\x7bid\x7d" deleteBodyOp).2.2 (by decide)
  rw [hu1] at h1
  rw [hu2] at h3
  exact ⟨h1.1, h2, h3⟩

/-!  The `links` special case of `generate_struct` (C10) and the
required/optional field law (C3). -/

theorem flatMap_if_skip (props : List (String × Schema)) (F : String × Schema → List String) :
    props.flatMap (fun p => if p.1 = "links" then [] else F p)
      = (props.filter (fun p => p.1 != "links")).flatMap F := by
  induction props with
  | nil => rfl
  | cons p ps ih =>
    by_cases h : p.1 = "links"
    · simp [List.flatMap_cons, List.filter_cons, h, ih]
    · simp [List.flatMap_cons, List.filter_cons, h, ih]

/-- C10: a property named `links` is never emitted as a normally-mapped
field — the field loop skips it — and when present the fixed optional
`Option<Vec<HashMap<String, Value>>>` block (with the skip-serializing
attribute) is appended after all other declared fields, before the catch-all
block, regardless of the property's schema or required-ness. -/
theorem c10_links_special_case (name : String) (s : Schema) :
    ((s.properties.getD []).any (fun p => p.1 == "links") = true →
      generate_struct name s =
        structHeaderLines name s
        ++ ((s.properties.getD []).filter (fun p => p.1 != "links")).flatMap
             (fun p => structFieldLines (structHasCamel s) (s.required.getD []) p.1 p.2)
        ++ linksBlock ++ extraBlock)
    ∧ ((s.properties.getD []).any (fun p => p.1 == "links") = false →
      generate_struct name s =
        structHeaderLines name s
        ++ ((s.properties.getD []).filter (fun p => p.1 != "links")).flatMap
             (fun p => structFieldLines (structHasCamel s) (s.required.getD []) p.1 p.2)
        ++ extraBlock)
    ∧ linksBlock =
        ["    /// HATEOAS links",
         "    #[serde(skip_serializing_if = \"Option::is_none\")]",
         "    pub links: Option<Vec<HashMap<String, Value>>>,",
         ""] := by
  refine ⟨?_, ?_, rfl⟩
  · intro h
    simp only [generate_struct]
    rw [flatMap_if_skip, h]
    simp
  · intro h
    simp only [generate_struct]
    rw [flatMap_if_skip, h]
    simp

/-- Witness for C10: the schema declaring a required string `links` property
and an optional `foo` property, fully expanded. -/
theorem c10_links_special_case_witness :
    generate_struct "W" linksRequiredSchema =
      structHeaderLines "W" linksRequiredSchema
      ++ ((linksRequiredSchema.properties.getD []).filter (fun p => p.1 != "links")).flatMap
           (fun p => structFieldLines (structHasCamel linksRequiredSchema)
              (linksRequiredSchema.required.getD []) p.1 p.2)
      ++ linksBlock ++ extraBlock :=
  (c10_links_special_case "W" linksRequiredSchema).1 (by decide)

/-- C3 counterexample: on a schema whose `links` property is required, the
emitted `links` field is nevertheless the optional-wrapped fixed type; and an
optional property with the empty schema `{}` is emitted as plain `Value`,
not optional-wrapped (the empty-schema early return skips the wrap). -/
theorem c3_required_links_counterexample :
    (generate_struct "W" linksRequiredSchema).filter
        (fun l => pyStartsWith l "    pub links")
      = ["    pub links: Option<Vec<HashMap<String, Value>>>,"]
    ∧ "links" ∈ linksRequiredSchema.required.getD []
    ∧ pyStartsWith "Option<Vec<HashMap<String, Value>>>" "Option<" = true
    ∧ ("    pub foo: Value," ∈ generate_struct "W" linksRequiredSchema)
    ∧ "foo" ∉ linksRequiredSchema.required.getD []
    ∧ pyStartsWith "Value" "Option<" = false := by
  refine ⟨by decide, by decide, by decide, by decide, by decide, by decide⟩

theorem pyStartsWith_option_false {t : String} (h : ('<' : Char) ∉ t.data) :
    pyStartsWith t "Option<" = false := by
  cases hb : pyStartsWith t "Option<" with
  | false => rfl
  | true =>
    have hp : ("Option<").data <+: t.data := List.isPrefixOf_iff_prefix.mp hb
    exact absurd (hp.subset (by decide)) h

theorem mem_pyCapitalizeChars_non_alpha {t : Char} (ht : pyCharIsAlpha t = false)
    {l : List Char} (h : t ∈ pyCapitalizeChars l) : t ∈ l := by
  cases l with
  | nil => cases h
  | cons c cs =>
    simp only [pyCapitalizeChars, List.mem_cons, List.mem_map] at h
    rcases h with h | ⟨x, hx, hxe⟩
    · exact (pyCharUpper_eq_non_alpha ht h.symm ▸ List.mem_cons_self c cs)
    · exact List.mem_cons_of_mem c (pyCharLower_eq_non_alpha ht hxe ▸ hx)

theorem pyStartsWith_vec_option_false (X : String) :
    pyStartsWith ("Vec<" ++ X) "Option<" = false := by
  have hd : ("Vec<" ++ X).data = 'V' :: 'e' :: 'c' :: '<' :: X.data := by
    rw [String.data_append]
    rfl
  simp only [pyStartsWith, hd]
  rfl

/-- The required-case half of the optional-wrap law: with `required = true`
the mapped type never takes the `Option<` form, provided a referenced schema
name does not itself contain `<`. -/
theorem rust_type_not_option (s : Schema)
    (h : ∀ r, s.ref = some r → ('<' : Char) ∉ (refTail r).data) :
    pyStartsWith (rust_type_from_openapi s true) "Option<" = false := by
  rcases s with ⟨ref, typ, fmt, en, it, pr, rq, de, ot⟩
  simp only [Schema.ref] at h
  by_cases hf : schemaFalsy (.mk ref typ fmt en it pr rq de ot) = true
  · rw [rust_type_from_openapi.eq_def]
    simp only [hf, if_true]
    decide
  · rw [rust_type_from_openapi.eq_def]
    simp only [hf, Bool.false_eq_true, if_false]
    cases ref with
    | some r =>
      apply pyStartsWith_option_false
      cases hd : (refTail r).data with
      | nil =>
        simp only [hd]
        exact h r rfl
      | cons c cs =>
        simp only [hd]
        by_cases hl : pyCharIsLower c = true
        · simp only [hl, if_true]
          intro hmem
          exact h r rfl (mem_pyCapitalizeChars_non_alpha (by decide) hmem)
        · simp only [hl, Bool.false_eq_true, if_false]
          exact h r rfl
    | none =>
      by_cases he : en.isSome = true
      · simp only [he, if_true]
        decide
      · simp only [he, Bool.false_eq_true, if_false]
        by_cases ha : typ.getD "object" = "array"
        · simp only [ha, if_true]
          cases it with
          | some x => exact pyStartsWith_vec_option_false _
          | none =>
            rw [type_map_no_array]
            decide
        · rw [if_neg ha]
          rcases hfind : type_map.find? (fun e => e.1 == (typ.getD "object", fmt.getD ""))
            with _ | e
          · rw [hfind]
            decide
          · rw [hfind]
            have hmem2 := List.mem_of_find?_eq_some hfind
            have hall : type_map.all (fun e => !(pyStartsWith e.2 "Option<")) = true := by
              decide
            have hv := List.all_eq_true.mp hall e hmem2
            simp only [Bool.not_eq_true'] at hv
            simpa using hv

/-- The optional-case half: with `required = false` the mapped type of a
non-empty schema node is exactly the `Option<...>`-wrapped required-case
type. -/
theorem rust_type_option_wrap (s : Schema) (h : schemaFalsy s = false) :
    rust_type_from_openapi s false = "Option<" ++ rust_type_from_openapi s true ++ ">" := by
  rcases s with ⟨ref, typ, fmt, en, it, pr, rq, de, ot⟩
  rw [rust_type_from_openapi.eq_def, rust_type_from_openapi.eq_def]
  simp only [h, Bool.false_eq_true, if_false]
  cases ref with
  | some r => simp
  | none =>
    by_cases he : en.isSome = true
    · simp only [he, if_true]
      rfl
    · simp only [he, Bool.false_eq_true, if_false]
      simp

/-- C3 amended: for every object-schema property other than one named
`links`, with a non-empty schema node and a `<`-free referenced name, the
emitted field line carries exactly the mapped type for the property's
required-ness; a required property's type never takes the optional-wrapped
form, and a non-required property's type is always the optional wrap of the
required-case type.  (The `links` property and empty `{}` property schemas
are genuine exceptions — see the counterexample.) -/
theorem c3_required_field_law (name : String) (s : Schema) (pname : String) (ps : Schema)
    (hmem : (pname, ps) ∈ s.properties.getD []) (hnl : pname ≠ "links")
    (hfal : schemaFalsy ps = false)
    (href : ∀ r, ps.ref = some r → ('<' : Char) ∉ (refTail r).data) :
    (("    pub " ++ structFieldName pname ++ ": "
       ++ rust_type_from_openapi ps ((s.required.getD []).contains pname) ++ ",")
      ∈ generate_struct name s)
    ∧ ((s.required.getD []).contains pname = true →
        pyStartsWith (rust_type_from_openapi ps true) "Option<" = false)
    ∧ ((s.required.getD []).contains pname = false →
        rust_type_from_openapi ps false
          = "Option<" ++ rust_type_from_openapi ps true ++ ">") := by
  refine ⟨?_, fun _ => rust_type_not_option ps href, fun _ => rust_type_option_wrap ps hfal⟩
  simp only [generate_struct, List.mem_append]
  left
  left
  right
  rw [List.mem_flatMap]
  refine ⟨(pname, ps), hmem, ?_⟩
  rw [if_neg hnl]
  simp only [structFieldLines, List.mem_append, List.mem_cons]
  right
  left
  trivial

/-- Witness for the amended C3: the widget scenario's required `id` field and
optional `createdAt` field instantiate all three parts. -/
theorem c3_required_field_law_witness :
    (("    pub " ++ structFieldName "id" ++ ": "
       ++ rust_type_from_openapi strSchema ((widgetSchema.required.getD []).contains "id") ++ ",")
      ∈ generate_struct "widget" widgetSchema)
    ∧ pyStartsWith (rust_type_from_openapi strSchema true) "Option<" = false
    ∧ rust_type_from_openapi dateTimeSchema false
        = "Option<" ++ rust_type_from_openapi dateTimeSchema true ++ ">" := by
  have hrefs : ∀ r, strSchema.ref = some r → ('<' : Char) ∉ (refTail r).data := by
    intro r hr
    simp [strSchema, Schema.ref] at hr
  have hrefd : ∀ r, dateTimeSchema.ref = some r → ('<' : Char) ∉ (refTail r).data := by
    intro r hr
    simp [dateTimeSchema, Schema.ref] at hr
  have hm1 : ("id", strSchema) ∈ widgetSchema.properties.getD [] :=
    List.mem_cons_self _ _
  have hm2 : ("createdAt", dateTimeSchema) ∈ widgetSchema.properties.getD [] :=
    List.mem_cons_of_mem _ (List.mem_cons_self _ _)
  have h1 := c3_required_field_law "widget" widgetSchema "id" strSchema
    hm1 (by decide) (by decide) hrefs
  have h2 := c3_required_field_law "widget" widgetSchema "createdAt" dateTimeSchema
    hm2 (by decide) (by decide) hrefd
  exact ⟨h1.1, h1.2.1 (by decide), h2.2.2 (by decide)⟩

/-- C8 counterexample: for values `["Mixed", "case"]` no blanket annotation
is chosen, but only the `case` variant carries a per-value rename — the value
`Mixed` equals its PascalCase variant name, so the claim's "each variant
carries an explicit literal-value rename" fails for it. -/
theorem c8_mixed_counterexample :
    (generate_enum "E" ["Mixed", "case"]).filter
        (fun l => pyStartsWith l "    #[serde(rename = ")
      = ["    #[serde(rename = \"case\")]"]
    ∧ (generate_enum "E" ["Mixed", "case"]).filter
        (fun l => pyStartsWith l "#[serde(rename_all") = []
    ∧ enumVariantName "Mixed" = "Mixed" := by
  refine ⟨by decide, by decide, by decide⟩

theorem pyStartsWith_false_of_head_ne {s p : String} {a b : Char} {as bs : List Char}
    (hs : s.data = a :: as) (hp : p.data = b :: bs) (hne : (b == a) = false) :
    pyStartsWith s p = false := by
  simp [pyStartsWith, hs, hp, List.isPrefixOf, hne]

theorem enumCaseLines_pred_true (values : List String) :
    ∀ l ∈ enumCaseLines values, pyStartsWith l "#[serde(rename_all" = true := by
  unfold enumCaseLines
  split_ifs <;> intro l hl
  · rw [List.mem_singleton] at hl
    subst hl
    decide
  · rw [List.mem_singleton] at hl
    subst hl
    decide
  · rw [List.mem_singleton] at hl
    subst hl
    decide
  · cases hl

theorem enumValueLines_pred_false (v : String) :
    ∀ l ∈ enumValueLines v, pyStartsWith l "#[serde(rename_all" = false := by
  intro l hl
  simp only [enumValueLines, List.mem_append] at hl
  rcases hl with hl | hl
  · by_cases h : v ≠ enumVariantName v
    · rw [if_pos h, List.mem_singleton] at hl
      subst hl
      have hs : (("    #[serde(rename = \"" ++ v) ++ "\")]").data
          = ' ' :: ("   #[serde(rename = \"".data ++ v.data ++ "\")]".data) := by
        rw [String.data_append, String.data_append]
        rfl
      exact pyStartsWith_false_of_head_ne hs rfl (by decide)
    · rw [if_neg h] at hl
      cases hl
  · rw [List.mem_singleton] at hl
    subst hl
    have hs : (("    " ++ enumVariantName v) ++ ",").data
        = ' ' :: ("   ".data ++ (enumVariantName v).data ++ ",".data) := by
      rw [String.data_append, String.data_append]
      rfl
    exact pyStartsWith_false_of_head_ne hs rfl (by decide)

/-- C8 amended: the blanket serialization-case annotation lines of the
emitted enum are exactly those chosen by the hyphen/upper/lower inspection of
the literal value set (with the claim's four example value sets evaluated),
and a variant carries an explicit per-value rename exactly when its literal
value differs from its PascalCase variant name — values already equal to
their variant name carry none. -/
theorem c8_enum_convention_law :
    (∀ (name : String) (values : List String),
      (generate_enum name values).filter (fun l => pyStartsWith l "#[serde(rename_all")
        = enumCaseLines values)
    ∧ enumCaseLines ["a-b", "c-d"] = ["#[serde(rename_all = \"kebab-case\")]"]
    ∧ enumCaseLines ["ACTIVE", "PAUSED"] = ["#[serde(rename_all = \"UPPERCASE\")]"]
    ∧ enumCaseLines ["active", "paused"] = ["#[serde(rename_all = \"lowercase\")]"]
    ∧ enumCaseLines ["Mixed", "case"] = []
    ∧ (∀ v : String,
        (enumVariantName v ≠ v →
          enumValueLines v
            = ["    #[serde(rename = \"" ++ v ++ "\")]", "    " ++ enumVariantName v ++ ","])
        ∧ (enumVariantName v = v → enumValueLines v = ["    " ++ v ++ ","]))
    ∧ (∀ (name : String) (values : List String) (v : String), v ∈ values →
        enumVariantName v ≠ v →
        ("    #[serde(rename = \"" ++ v ++ "\")]") ∈ generate_enum name values) := by
  refine ⟨?_, by decide, by decide, by decide, by decide, ?_, ?_⟩
  · intro name values
    unfold generate_enum
    simp only [List.filter_append]
    have hh1 : pyStartsWith ("/// " ++ name) "#[serde(rename_all" = false := by
      have hs : ("/// " ++ name).data = '/' :: ("// ".data ++ name.data) := by
        rw [String.data_append]
        rfl
      exact pyStartsWith_false_of_head_ne hs rfl (by decide)
    have hh2 : pyStartsWith "#[derive(Debug, Clone, Serialize, Deserialize)]"
        "#[serde(rename_all" = false := by decide
    have h1 : List.filter (fun l => pyStartsWith l "#[serde(rename_all")
        ["/// " ++ name, "#[derive(Debug, Clone, Serialize, Deserialize)]"] = [] := by
      simp [List.filter_cons, hh1, hh2]
    have h2 : List.filter (fun l => pyStartsWith l "#[serde(rename_all")
        (enumCaseLines values) = enumCaseLines values :=
      List.filter_eq_self.mpr (enumCaseLines_pred_true values)
    have hh3 : pyStartsWith ("pub enum " ++ name ++ " \x7b") "#[serde(rename_all" = false := by
      have hs : (("pub enum " ++ name) ++ " \x7b").data
          = 'p' :: ("ub enum ".data ++ name.data ++ " \x7b".data) := by
        rw [String.data_append, String.data_append]
        rfl
      exact pyStartsWith_false_of_head_ne hs rfl (by decide)
    have h3 : List.filter (fun l => pyStartsWith l "#[serde(rename_all")
        ["pub enum " ++ name ++ " \x7b"] = [] := by
      simp [List.filter_cons, hh3]
    have h4 : List.filter (fun l => pyStartsWith l "#[serde(rename_all")
        (values.flatMap enumValueLines) = [] := by
      rw [List.filter_eq_nil_iff]
      intro l hl
      rw [List.mem_flatMap] at hl
      rcases hl with ⟨v, _, hlv⟩
      simp [enumValueLines_pred_false v l hlv]
    have h5 : List.filter (fun l => pyStartsWith l "#[serde(rename_all")
        ["\x7d"] = [] := by decide
    rw [h1, h2, h3, h4, h5]
    simp
  · intro v
    constructor
    · intro h
      simp only [enumValueLines]
      rw [if_pos (Ne.symm h)]
      rfl
    · intro h
      simp only [enumValueLines]
      rw [if_neg (not_ne_iff.mpr h.symm), h]
      rfl
  · intro name values v hv hne
    unfold generate_enum
    simp only [List.mem_append]
    left
    right
    rw [List.mem_flatMap]
    refine ⟨v, hv, ?_⟩
    simp only [enumValueLines]
    rw [if_pos (Ne.symm hne)]
    exact List.mem_cons_self _ _

/-- Witness for the amended C8: the annotation filter evaluated on the
`["Mixed", "case"]` enum, the per-variant structure for `case`, and the
rename membership for `case`. -/
theorem c8_enum_convention_law_witness :
    (generate_enum "E" ["Mixed", "case"]).filter
        (fun l => pyStartsWith l "#[serde(rename_all") = enumCaseLines ["Mixed", "case"]
    ∧ enumValueLines "case" = ["    #[serde(rename = \"case\")]", "    Case,"]
    ∧ ("    #[serde(rename = \"case\")]") ∈ generate_enum "E" ["Mixed", "case"] := by
  refine ⟨c8_enum_convention_law.1 "E" ["Mixed", "case"], ?_, ?_⟩
  · have h := (c8_enum_convention_law.2.2.2.2.2.1 "case").1 (by decide)
    rw [h]
    decide
  · exact c8_enum_convention_law.2.2.2.2.2.2 "E" ["Mixed", "case"] "case"
      (List.mem_cons_of_mem _ (List.mem_cons_self _ _)) (by decide)

/-!  C7: the method-name normalizer. -/

/-- C7 counterexample: on `operationId = "GetGetAllUsers"` with verb `get`,
the code strips the first `Get`, then the replacement table rewrites the
leading `get_all_` to `list_`, giving `list_users`; the claim's rules (strip
one verb prefix, word-delimit, verb rules only) give `get_all_users`. -/
theorem c7_replacement_table_counterexample :
    clean_method_name "GetGetAllUsers" "get" = "list_users"
    ∧ claimedCleanMethodName "GetGetAllUsers" "get" = "get_all_users"
    ∧ ("list_users" : String) ≠ "get_all_users" := by
  refine ⟨by decide, by decide, by decide⟩

theorem stripVerbStage_eq_foldl (ps : List String) (n : String) :
    stripVerbStage ps n
      = ps.foldl
          (fun n p => if pyStartsWith (pyLower n) p then pyDropChars n p.data.length else n)
          n := by
  induction ps generalizing n with
  | nil => rfl
  | cons p ps ih => simp only [stripVerbStage, List.foldl_cons, ih]

theorem replacementStage_eq_foldl (rs : List (String × String)) (n : String) :
    replacementStage rs n
      = rs.foldl
          (fun n r => if pyStartsWith n r.1 then r.2 ++ pyDropChars n r.1.data.length else n)
          n := by
  induction rs generalizing n with
  | nil => rfl
  | cons r rs ih => simp only [replacementStage, List.foldl_cons, ih]

/-- C7 amended: `clean_method_name` is exactly the four-stage normalizer of
the amended claim — the sequential multi-prefix strip, `to_snake_case`, the
ordered replacement table, and the verb-specific rules. -/
theorem c7_method_name_stages (operation_id method : String) :
    clean_method_name operation_id method = amendedCleanMethodName operation_id method := by
  simp only [clean_method_name, amendedCleanMethodName, stripVerbStage_eq_foldl,
    replacementStage_eq_foldl, verbRuleStage]
  generalize (methodReplacements.foldl
      (fun n r => if pyStartsWith n r.1 then r.2 ++ pyDropChars n r.1.data.length else n)
      (to_snake_case (httpVerbs.foldl
        (fun n p => if pyStartsWith (pyLower n) p then pyDropChars n p.data.length else n)
        operation_id))) = nm
  split_ifs <;> simp_all

/-!  C6: the name round trip `to_pascal_case ∘ to_snake_case`. -/

theorem lower_digit_of_alnum_not_upper {c : Char} (h1 : alnumChar c = true)
    (h2 : pyCharIsUpper c = false) : (pyCharIsLower c || pyCharIsDigit c) = true := by
  simp only [alnumChar, pyCharIsAlpha, h2, Bool.false_or, Bool.or_eq_true] at h1
  simp only [Bool.or_eq_true]
  exact h1

theorem alnum_ne_underscore {c : Char} (h : alnumChar c = true) : c ≠ '_' := by
  intro hc
  rw [hc] at h
  exact absurd h (by decide)

theorem lower_ne_underscore {c : Char} (h : alnumChar c = true) : pyCharLower c ≠ '_' := by
  intro hl
  exact alnum_ne_underscore h (pyCharLower_eq_non_alpha (by decide) hl)

theorem sub1Go_id : ∀ (n : Nat) (cs : List Char), cs.length ≤ n →
    noTwoUppers cs → sub1Go [] cs = cs := by
  intro n
  induction n with
  | zero =>
    intro cs hlen _
    rw [List.length_eq_zero.mp (Nat.le_zero.mp hlen)]
    rfl
  | succ n ih =>
    intro cs hlen hc
    cases cs with
    | nil => rfl
    | cons c cs2 =>
      by_cases hu : pyCharIsUpper c = true
      · simp only [sub1Go, hu, if_true]
        cases cs2 with
        | nil => rfl
        | cons c2 cs3 =>
          have hrel := (List.chain'_cons.mp hc).1
          have hu2 : pyCharIsUpper c2 = false := by
            cases h2 : pyCharIsUpper c2 with
            | false => rfl
            | true => exact absurd ⟨hu, h2⟩ hrel
          simp only [sub1Go, hu2, Bool.false_eq_true, if_false, List.nil_append,
            List.length_cons, List.length_nil]
          rw [if_neg (by simp)]
          have : sub1Go [] cs3 = cs3 := by
            refine ih cs3 ?_ ?_
            · simp only [List.length_cons] at hlen
              omega
            · exact ((List.chain'_cons.mp hc).2).tail
          rw [this]
          rfl
      · simp only [sub1Go, hu, Bool.false_eq_true, if_false, List.length_nil]
        rw [if_neg (by simp)]
        have : sub1Go [] cs2 = cs2 := by
          refine ih cs2 ?_ hc.tail
          simp only [List.length_cons] at hlen
          omega
        rw [this]
        rfl

theorem sub2_no_upper_tail : ∀ (w : List Char) (c : Char),
    (∀ x ∈ w, pyCharIsUpper x = false) → sub2 (c :: w) = c :: w := by
  intro w
  induction w with
  | nil => intro c _; rfl
  | cons a w2 ih =>
    intro c hw
    have ha : pyCharIsUpper a = false := hw a (List.mem_cons_self a w2)
    simp only [sub2, ha, Bool.false_eq_true, and_false, if_false]
    rw [ih a (fun x hx => hw x (List.mem_cons_of_mem a hx))]

theorem sub2_upper_head {u : Char} (hu : pyCharIsUpper u = true) :
    ∀ rest, sub2 (u :: rest) = u :: sub2 rest := by
  intro rest
  cases rest with
  | nil => rfl
  | cons x xs =>
    have hl : pyCharIsLower u = false := upper_not_lower hu
    have hd : pyCharIsDigit u = false := by
      cases hdig : pyCharIsDigit u with
      | false => rfl
      | true =>
        have h2 := (digit_not_cased hdig).1
        rw [h2] at hu
        cases hu
    simp only [sub2, hl, hd, Bool.or_self, Bool.false_eq_true, false_and, if_false]

theorem sub2_word {u : Char} (hu : pyCharIsUpper u = true) :
    ∀ (w : List Char) (rest : List Char), w ≠ [] →
      (∀ x ∈ w, alnumChar x = true) → (∀ x ∈ w, pyCharIsUpper x = false) →
      sub2 (w ++ u :: rest) = w ++ '_' :: u :: sub2 rest := by
  intro w
  induction w with
  | nil => intro rest h _ _; exact absurd rfl h
  | cons a w2 ih =>
    intro rest _ halnum hupper
    cases w2 with
    | nil =>
      have hld := lower_digit_of_alnum_not_upper (halnum a (List.mem_cons_self a []))
        (hupper a (List.mem_cons_self a []))
      simp only [List.cons_append, List.nil_append, sub2, hld, hu, and_self, if_true]
    | cons b w3 =>
      have hb : pyCharIsUpper b = false := hupper b (List.mem_cons_of_mem a (List.mem_cons_self b w3))
      simp only [List.cons_append, sub2, hb, Bool.false_eq_true, and_false, if_false,
        List.append_eq]
      have := ih rest (by simp) (fun x hx => halnum x (List.mem_cons_of_mem a hx))
        (fun x hx => hupper x (List.mem_cons_of_mem a hx))
      simp only [List.cons_append] at this
      rw [this]

theorem splitChar_ne_nil (sep : Char) (l : List Char) : splitChar sep l ≠ [] := by
  cases l with
  | nil => simp [splitChar]
  | cons c cs =>
    simp only [splitChar]
    rcases h : splitChar sep cs with _ | ⟨w, ws⟩
    · simp
    · split_ifs <;> simp

theorem splitChar_no_sep (sep : Char) : ∀ l, (∀ x ∈ l, x ≠ sep) → splitChar sep l = [l] := by
  intro l
  induction l with
  | nil => intro; rfl
  | cons c cs ih =>
    intro h
    simp only [splitChar]
    rw [ih (fun x hx => h x (List.mem_cons_of_mem c hx))]
    simp [h c (List.mem_cons_self c cs)]

theorem splitChar_append (sep : Char) : ∀ (X Y : List Char), (∀ x ∈ X, x ≠ sep) →
    splitChar sep (X ++ sep :: Y) = X :: splitChar sep Y := by
  intro X
  induction X with
  | nil =>
    intro Y _
    simp only [List.nil_append, splitChar]
    rcases h : splitChar sep Y with _ | ⟨w, ws⟩
    · exact absurd h (splitChar_ne_nil sep Y)
    · simp
  | cons a X2 ih =>
    intro Y h
    simp only [List.cons_append, splitChar, List.append_eq]
    rw [ih Y (fun x hx => h x (List.mem_cons_of_mem a hx))]
    simp [h a (List.mem_cons_self a X2)]

theorem map_lower_no_upper (w : List Char) (h : ∀ x ∈ w, pyCharIsUpper x = false) :
    w.map pyCharLower = w := by
  have : w.map pyCharLower = w.map id :=
    List.map_congr_left (fun a ha => pyCharLower_of_not_upper (h a ha))
  rw [this, List.map_id]

theorem dropWhile_head_false {p : Char → Bool} : ∀ (l : List Char) (x : Char) (xs : List Char),
    l.dropWhile p = x :: xs → p x = false := by
  intro l
  induction l with
  | nil => intro x xs h; cases h
  | cons a l2 ih =>
    intro x xs h
    rw [List.dropWhile_cons] at h
    by_cases hpa : p a = true
    · rw [if_pos hpa] at h
      exact ih x xs h
    · rw [if_neg hpa] at h
      cases h
      simpa using hpa

theorem snake_pascal_core : ∀ (n : Nat) (c : Char) (cs' : List Char), cs'.length ≤ n →
    (∀ x ∈ c :: cs', alnumChar x = true) → noTwoUppers (c :: cs') →
    pascalWords ((sub2 (c :: cs')).map pyCharLower) = pyCharUpper c :: cs' := by
  intro n
  induction n with
  | zero =>
    intro c cs' hlen halnum _
    rw [List.length_eq_zero.mp (Nat.le_zero.mp hlen)]
    simp only [sub2, List.map_cons, List.map_nil, pascalWords]
    rw [splitChar_no_sep _ _ (by
      intro x hx
      rw [List.mem_singleton] at hx
      subst hx
      exact lower_ne_underscore (halnum c (List.mem_cons_self _ _)))]
    simp only [List.map_cons, List.map_nil, pyCapitalizeChars, List.flatten]
    rw [pyCharUpper_pyCharLower]
    simp
  | succ n ih =>
    intro c cs' hlen halnum hc
    have hsplit : cs' = cs'.takeWhile (fun x => !pyCharIsUpper x)
        ++ cs'.dropWhile (fun x => !pyCharIsUpper x) :=
      (List.takeWhile_append_dropWhile _ cs').symm
    have hw'up : ∀ x ∈ cs'.takeWhile (fun x => !pyCharIsUpper x), pyCharIsUpper x = false := by
      intro x hx
      have := List.mem_takeWhile_imp hx
      simpa using this
    have hw'mem : ∀ x ∈ cs'.takeWhile (fun x => !pyCharIsUpper x), x ∈ cs' := by
      intro x hx
      exact List.takeWhile_subset _ hx
    rcases hr : cs'.dropWhile (fun x => !pyCharIsUpper x) with _ | ⟨u, rest2⟩
    · -- no uppercase after the head: a single word
      rw [hr] at hsplit
      rw [List.append_nil] at hsplit
      rw [← hsplit] at hw'up hw'mem
      rw [sub2_no_upper_tail cs' c hw'up]
      simp only [List.map_cons, pascalWords]
      rw [splitChar_no_sep _ _ (by
        intro x hx
        rcases List.mem_cons.mp hx with hx | hx
        · subst hx
          exact lower_ne_underscore (halnum c (List.mem_cons_self _ _))
        · rcases List.mem_map.mp hx with ⟨y, hy, hye⟩
          rw [← hye]
          exact lower_ne_underscore (halnum y (List.mem_cons_of_mem c hy)))]
      simp only [List.map_cons, List.map_nil, pyCapitalizeChars, List.flatten]
      rw [map_lower_no_upper _ (by
        intro x hx
        rcases List.mem_map.mp hx with ⟨y, hy, hye⟩
        rw [← hye]
        exact pyCharIsUpper_pyCharLower y)]
      rw [map_lower_no_upper cs' hw'up, pyCharUpper_pyCharLower]
      simp
    · -- an uppercase letter u follows: one word then the rest
      have hu : pyCharIsUpper u = true := by
        have := dropWhile_head_false cs' u rest2 hr
        simpa using this
      have hsuffix : (u :: rest2) <:+ (c :: cs') := by
        refine ⟨c :: cs'.takeWhile (fun x => !pyCharIsUpper x), ?_⟩
        rw [List.cons_append, ← hr, ← hsplit]
      have hchain_rest : noTwoUppers (u :: rest2) := hc.suffix hsuffix
      have hmem_rest : ∀ x ∈ u :: rest2, x ∈ c :: cs' := fun x hx => hsuffix.subset hx
      have halnum_rest : ∀ x ∈ u :: rest2, alnumChar x = true :=
        fun x hx => halnum x (hmem_rest x hx)
      have hlen_rest : rest2.length ≤ n := by
        have h1 : (u :: rest2).length ≤ cs'.length := by
          rw [hsplit, hr]
          simp [List.length_append]
        simp only [List.length_cons] at h1 hlen
        omega
      have hIH := ih u rest2 hlen_rest halnum_rest hchain_rest
      unfold pascalWords at hIH
      have huu : pyCharUpper u = u := pyCharUpper_of_not_lower (upper_not_lower hu)
      rcases hw : cs'.takeWhile (fun x => !pyCharIsUpper x) with _ | ⟨a, w2⟩
      · -- c is directly followed by u
        have hcs2 : cs' = u :: rest2 := by
          conv_lhs => rw [hsplit, hr, hw]
          rfl
        have hcu : pyCharIsUpper c = false := by
          rw [hcs2] at hc
          have hrel := (List.chain'_cons.mp hc).1
          cases h2 : pyCharIsUpper c with
          | false => rfl
          | true => exact absurd ⟨h2, hu⟩ hrel
        have hld := lower_digit_of_alnum_not_upper (halnum c (List.mem_cons_self _ _)) hcu
        rw [hcs2]
        simp only [sub2, hld, hu, and_self, if_true, List.map_cons]
        have hlu : pyCharLower '_' = '_' := by decide
        rw [hlu]
        unfold pascalWords
        rw [show (pyCharLower c :: '_' :: pyCharLower u :: (sub2 rest2).map pyCharLower)
            = [pyCharLower c] ++ '_' :: (pyCharLower u :: (sub2 rest2).map pyCharLower)
          from rfl]
        rw [splitChar_append _ _ _ (by
          intro x hx
          rw [List.mem_singleton] at hx
          subst hx
          exact lower_ne_underscore (halnum c (List.mem_cons_self _ _)))]
        have hT : (pyCharLower u :: (sub2 rest2).map pyCharLower)
            = (sub2 (u :: rest2)).map pyCharLower := by
          rw [sub2_upper_head hu]
          rfl
        rw [hT]
        simp only [List.map_cons, List.flatten_cons]
        rw [hIH, huu]
        simp only [pyCapitalizeChars, List.map_nil]
        rw [pyCharUpper_pyCharLower]
        simp
      · -- a nonempty all-lower word separates c from u
        have hcs2 : cs' = (a :: w2) ++ u :: rest2 := by
          conv_lhs => rw [hsplit, hr, hw]
        have halnum_w : ∀ x ∈ a :: w2, alnumChar x = true := by
          intro x hx
          refine halnum x (List.mem_cons_of_mem c ?_)
          rw [hcs2]
          exact List.mem_append_left _ hx
        have hupper_w : ∀ x ∈ a :: w2, pyCharIsUpper x = false := by
          intro x hx
          exact hw'up x (hw ▸ hx)
        have ha : pyCharIsUpper a = false := hupper_w a (List.mem_cons_self _ _)
        rw [hcs2]
        have h2 := sub2_word hu (a :: w2) rest2 (by simp) halnum_w hupper_w
        simp only [List.cons_append] at h2 ⊢
        rw [show sub2 (c :: a :: (w2 ++ u :: rest2))
            = c :: sub2 (a :: (w2 ++ u :: rest2)) from by simp [sub2, ha]]
        rw [h2]
        simp only [List.map_cons, List.map_append]
        have hlu : pyCharLower '_' = '_' := by decide
        rw [hlu]
        unfold pascalWords
        rw [show (pyCharLower c :: pyCharLower a :: (List.map pyCharLower w2
              ++ '_' :: pyCharLower u :: (sub2 rest2).map pyCharLower))
            = (pyCharLower c :: pyCharLower a :: List.map pyCharLower w2)
              ++ '_' :: (pyCharLower u :: (sub2 rest2).map pyCharLower)
          from by simp]
        rw [splitChar_append _ _ _ (by
          intro x hx
          rcases List.mem_cons.mp hx with hx | hx
          · subst hx
            exact lower_ne_underscore (halnum c (List.mem_cons_self _ _))
          rcases List.mem_cons.mp hx with hx | hx
          · subst hx
            exact lower_ne_underscore (halnum_w a (List.mem_cons_self _ _))
          · rcases List.mem_map.mp hx with ⟨y, hy, hye⟩
            rw [← hye]
            exact lower_ne_underscore (halnum_w y (List.mem_cons_of_mem a hy)))]
        have hT : (pyCharLower u :: (sub2 rest2).map pyCharLower)
            = (sub2 (u :: rest2)).map pyCharLower := by
          rw [sub2_upper_head hu]
          rfl
        rw [hT]
        simp only [List.map_cons, List.flatten_cons]
        rw [hIH, huu]
        simp only [pyCapitalizeChars, List.map_cons]
        rw [pyCharUpper_pyCharLower]
        rw [show List.map pyCharLower (List.map pyCharLower w2) = List.map pyCharLower w2
          from map_lower_no_upper _ (by
            intro x hx
            rcases List.mem_map.mp hx with ⟨y, hy, hye⟩
            rw [← hye]
            exact pyCharIsUpper_pyCharLower y)]
        rw [show pyCharLower (pyCharLower a) = pyCharLower a
          from pyCharLower_of_not_upper (pyCharIsUpper_pyCharLower a)]
        rw [show pyCharLower a = a from pyCharLower_of_not_upper ha]
        rw [map_lower_no_upper w2 (fun x hx => hupper_w x (List.mem_cons_of_mem a hx))]
        simp

theorem noTwoUppers_of_bool : ∀ l : List Char,
    (l.zip l.tail).all (fun p => !(pyCharIsUpper p.1 && pyCharIsUpper p.2)) = true →
    noTwoUppers l := by
  intro l
  induction l with
  | nil => exact fun _ => List.chain'_nil
  | cons a l ih =>
    intro h
    cases l with
    | nil => simp [noTwoUppers]
    | cons b l2 =>
      unfold noTwoUppers
      rw [List.chain'_cons]
      simp only [List.tail_cons, List.zip_cons_cons, List.all_cons, Bool.and_eq_true] at h
      refine ⟨?_, ih h.2⟩
      rintro ⟨h1, h2⟩
      rw [h1, h2] at h
      simp at h

/-- C6 amended: for a wire name of ASCII letters and digits in which no
uppercase letter directly follows another uppercase letter, and which
contains an internal capital preceded by a lowercase letter or digit,
`to_pascal_case` after `to_snake_case` reconstructs the name exactly up to
upper-casing its first character.  (Consecutive capitals break the round
trip — see the counterexample.) -/
theorem c6_name_round_trip (s : String)
    (halnum : ∀ c ∈ s.data, alnumChar c = true)
    (hnoUU : (s.data.zip s.data.tail).all
        (fun p => !(pyCharIsUpper p.1 && pyCharIsUpper p.2)) = true)
    (hscope : (s.data.zip s.data.tail).any
        (fun p => (pyCharIsLower p.1 || pyCharIsDigit p.1) && pyCharIsUpper p.2) = true) :
    to_pascal_case (to_snake_case s) = upperFirst s := by
  have hchain : noTwoUppers s.data := noTwoUppers_of_bool s.data hnoUU
  rcases hd : s.data with _ | ⟨c, cs'⟩
  · rw [hd] at hscope
    exact absurd hscope (by decide)
  · have hnoUU2 : noTwoUppers (c :: cs') := hd ▸ hchain
    have halnum2 : ∀ x ∈ c :: cs', alnumChar x = true := by
      rw [← hd]
      exact halnum
    have hsub1 : sub1Go [] (c :: cs') = c :: cs' :=
      sub1Go_id (c :: cs').length (c :: cs') le_rfl hnoUU2
    have hcore := snake_pascal_core cs'.length c cs' le_rfl halnum2 hnoUU2
    have hmain : to_pascal_case (to_snake_case s) = String.mk (pyCharUpper c :: cs') := by
      unfold to_snake_case
      rw [hd, hsub1]
      unfold to_pascal_case
      exact congrArg String.mk hcore
    rw [hmain]
    rw [upperFirst.eq_def, hd]

/-- Witness for the amended C6: `createdAt` round-trips to `CreatedAt`. -/
theorem c6_name_round_trip_witness :
    to_pascal_case (to_snake_case "createdAt") = upperFirst "createdAt"
    ∧ upperFirst "createdAt" = "CreatedAt" :=
  ⟨c6_name_round_trip "createdAt" (by decide) (by decide) (by decide), by decide⟩

/-- C6 counterexample: `widgetID` contains an internal capital preceded by a
lowercase letter (it is in the claim's scope), but the round trip gives
`WidgetId`, which differs from the original beyond the first letter
(`idgetId` vs `idgetID`). -/
theorem c6_round_trip_counterexample :
    to_snake_case "widgetID" = "widget_id"
    ∧ to_pascal_case "widget_id" = "WidgetId"
    ∧ to_pascal_case (to_snake_case "widgetID") ≠ upperFirst "widgetID"
    ∧ pyDropChars (to_pascal_case (to_snake_case "widgetID")) 1 = "idgetId"
    ∧ pyDropChars "widgetID" 1 = "idgetID"
    ∧ ("idgetId" : String) ≠ "idgetID"
    ∧ ("widgetID".data.zip "widgetID".data.tail).any
        (fun p => (pyCharIsLower p.1 || pyCharIsDigit p.1) && pyCharIsUpper p.2) = true := by
  refine ⟨by decide, by decide, by decide, by decide, by decide, by decide, by decide⟩
